import Mathlib

/-
Verification of the stakker_log key-value renderers.

The development shallowly embeds the two renderers of the crate
(`src/kvdisp.rs`, the single-line renderer, and `src/kvjson.rs`, the JSON
renderer) together with the type-dispatch layer (`src/visit.rs`).

Modelling conventions:
  * A traversal callback is a list of `Ev` protocol events (one `Ev` per
    `stakker::LogVisitor` method call).
  * The `fmt::Formatter` sink is `FmtState`: the text written so far plus a
    running index of write calls.  A function `fail : Nat → Bool` chooses
    which write calls the underlying destination rejects; `failNever`
    models a sink that always accepts.  A rejected write appends nothing.
  * Rust `f64` values are uninterpreted tokens (`F64`); their `Display`
    text is a parameter `fd` of the renderers.  No claim depends on the
    decimal text of a float.
  * `write!` into the scratch `String` buffer (`fmtbuf`) of `kv_fmt` can
    only fail if the value's own `Display` impl fails, so a `kv_fmt` event
    carries the text left in the buffer together with that success flag.
-/

set_option maxHeartbeats 1000000

/-- Abstract value of a Rust `f64`.  The claims checked here never inspect
float text, so the payload is an uninterpreted representation token. -/
structure F64 where
  bits : Nat
deriving DecidableEq

/-- Uppercase hexadecimal digit, as produced by Rust `{:X}` formatting. -/
def hexDigit (n : Nat) : Char :=
  if n < 10 then Char.ofNat (48 + n) else Char.ofNat (55 + n)

/-- Two-digit uppercase hex rendering of a byte, Rust `{:02X}` for values
below 256. -/
def hex2 (n : Nat) : String :=
  String.mk [hexDigit (n / 16 % 16), hexDigit (n % 16)]

/-- Four-digit uppercase hex rendering, Rust `{:04X}` for values below
65536. -/
def hex4 (n : Nat) : String :=
  String.mk [hexDigit (n / 4096 % 16), hexDigit (n / 256 % 16),
    hexDigit (n / 16 % 16), hexDigit (n % 16)]

/-- One call against the `stakker::LogVisitor` protocol.  `kv_fmt` carries
the pair of the text the lazily-formatted value wrote into the scratch
buffer and whether its `Display` impl succeeded. -/
inductive Ev where
  | kv_u64 (key : Option String) (val : Nat)
  | kv_i64 (key : Option String) (val : Int)
  | kv_f64 (key : Option String) (val : F64)
  | kv_bool (key : Option String) (val : Bool)
  | kv_null (key : Option String)
  | kv_str (key : Option String) (val : String)
  | kv_fmt (key : Option String) (val : String × Bool)
  | kv_map (key : Option String)
  | kv_mapend (key : Option String)
  | kv_arr (key : Option String)
  | kv_arrend (key : Option String)
deriving DecidableEq

/-- State of the `fmt::Formatter` sink: accumulated text and the index of
the next write call (used by the failure model). -/
structure FmtState where
  out : String
  n : Nat
deriving DecidableEq

/-- One write call against the sink.  `fail` chooses which calls the
underlying destination rejects; a rejected call appends nothing.  Models
`Formatter::write_str` / `write_char` / a single `write!`. -/
def wr (fail : Nat → Bool) (s : FmtState) (t : String) : FmtState × Bool :=
  if fail s.n then ({ out := s.out, n := s.n + 1 }, false)
  else ({ out := s.out ++ t, n := s.n + 1 }, true)

/-- Sink that accepts every write. -/
def failNever : Nat → Bool := fun _ => false

/-- Visitor state common to both renderers: sink, pending separator text
(field `prefix` in the source), emitted-anything flag and sticky error
flag (`empty` starts `true`, `error` starts `false`). -/
structure VState where
  fs : FmtState
  pfx : String
  empty : Bool
  error : Bool
deriving DecidableEq

/-- The `catch!` macro of both renderers: perform a fallible sink
operation and fold its failure into the sticky error flag. -/
def vcatch (s : VState) (r : FmtState × Bool) : VState :=
  { s with fs := r.1, error := s.error || !r.2 }

/-- `catch!(self, self.fmt.write_str t)` (or `write_char` / `write!`). -/
def vwrite (fail : Nat → Bool) (s : VState) (t : String) : VState :=
  vcatch s (wr fail s.fs t)

/-- Assignment to the pending-separator field. -/
def setPfx (s : VState) (p : String) : VState :=
  { s with pfx := p }

namespace Kvdisp

/-- Reserved characters outside quotes, `is_reserved` in `kvdisp.rs`. -/
def is_reserved (ch : Char) : Bool :=
  ch ≤ ' ' || ch == '\"' || ch == '=' || ch == '\\' || ch == '[' ||
    ch == ']' || ch == '\x7b' || ch == '\x7d'

/-- The escape token `write!(f, "\\{:02X}", ch as u8)`: a backslash and the
two-digit uppercase hex of the low byte of the character. -/
def escXX (ch : Char) : String :=
  "\\" ++ hex2 (ch.toNat % 256)

/-- Character loop inside `push_str_val`: each character is one write,
stopping at the first failed write (the `?` operator). -/
def push_str_val_go (fail : Nat → Bool) (fs : FmtState) :
    List Char → FmtState × Bool
  | [] => (fs, true)
  | ch :: rest =>
    let r := wr fail fs
      (if ch < ' ' || ch == '\"' || ch == '\\' then escXX ch
       else String.singleton ch)
    if r.2 then push_str_val_go fail r.1 rest else (r.1, false)

/-- `push_str_val` of `kvdisp.rs`: a value with no reserved character is
written verbatim; otherwise it is wrapped in quotes and characters below
space, the quote and the backslash are escaped. -/
def push_str_val (fail : Nat → Bool) (fs : FmtState) (val : String) :
    FmtState × Bool :=
  if val.toList.any is_reserved then
    let r := wr fail fs "\""
    if !r.2 then (r.1, false) else
    let r2 := push_str_val_go fail r.1 val.toList
    if !r2.2 then (r2.1, false) else
    wr fail r2.1 "\""
  else
    wr fail fs val

/-- Character loop of `push_key`: every character is separately written
under `catch!`, reserved ones as their escape token. -/
def push_key_chars (fail : Nat → Bool) (s : VState) : List Char → VState
  | [] => s
  | ch :: rest =>
    push_key_chars fail
      (vwrite fail s (if is_reserved ch then escXX ch else String.singleton ch))
      rest

/-- `Visitor::push_key` of `kvdisp.rs`: write the pending separator, clear
`empty`, set the separator to a single space, then write the (escaped) key
when present (an empty key becomes the placeholder token), then the
optional separator character such as the `=` sign. -/
def push_key (fail : Nat → Bool) (s : VState) (key : Option String)
    (sep : Option Char) : VState :=
  let s1 := vwrite fail s s.pfx
  let s2 := { s1 with empty := false, pfx := " " }
  match key with
  | none => s2
  | some k =>
    let s3 := if k.isEmpty then vwrite fail s2 "\\20"
              else push_key_chars fail s2 k.toList
    match sep with
    | none => s3
    | some c => vwrite fail s3 (String.singleton c)

/-- One `LogVisitor` method call of the single-line renderer. -/
def step (fd : F64 → String) (fail : Nat → Bool) (s : VState) : Ev → VState
  | .kv_u64 key v => vwrite fail (push_key fail s key (some '=')) (toString v)
  | .kv_i64 key v => vwrite fail (push_key fail s key (some '=')) (toString v)
  | .kv_f64 key v => vwrite fail (push_key fail s key (some '=')) (fd v)
  | .kv_bool key v =>
    vwrite fail (push_key fail s key (some '='))
      (if v then "true" else "false")
  | .kv_null key => push_key fail s key none
  | .kv_str key v =>
    let s1 := push_key fail s key (some '=')
    vcatch s1 (push_str_val fail s1.fs v)
  | .kv_fmt key v =>
    let s1 := push_key fail s key (some '=')
    let s2 := { s1 with error := s1.error || !v.2 }
    vcatch s2 (push_str_val fail s2.fs v.1)
  | .kv_map key => setPfx (vwrite fail (push_key fail s key none) "\x7b") ""
  | .kv_mapend _ => setPfx (vwrite fail s "\x7d") " "
  | .kv_arr key => setPfx (vwrite fail (push_key fail s key none) "[") ""
  | .kv_arrend _ => setPfx (vwrite fail s "]") " "

/-- Run the traversal callback: the sequence of visitor calls in order. -/
def run (fd : F64 → String) (fail : Nat → Bool) (evs : List Ev)
    (s : VState) : VState :=
  evs.foldl (step fd fail) s

/-- `impl Display for KvSingleLine`: build a fresh visitor seeded with the
prefix, run the callback, then report an error if the sticky flag is set,
write nothing more if nothing was emitted, and otherwise write the suffix.
Returns the final sink state and whether `fmt` returned `Ok`. -/
def fmt (fd : F64 → String) (fail : Nat → Bool) (kvscan : List Ev)
    (pfx sfx : String) (init : FmtState) : FmtState × Bool :=
  let v := run fd fail kvscan { fs := init, pfx := pfx, empty := true, error := false }
  if v.error then (v.fs, false)
  else if v.empty then (v.fs, true)
  else wr fail v.fs sfx

end Kvdisp

namespace Kvjson

/-- `push_str_literal` character loop: a quote or backslash is written as
two calls (backslash then the character), a control character as one
`\uXXXX` token, anything else verbatim; stops at the first failure. -/
def push_str_literal_go (fail : Nat → Bool) (fs : FmtState) :
    List Char → FmtState × Bool
  | [] => (fs, true)
  | ch :: rest =>
    if ch == '\"' || ch == '\\' then
      let r := wr fail fs "\\"
      if !r.2 then (r.1, false) else
      let r2 := wr fail r.1 (String.singleton ch)
      if !r2.2 then (r2.1, false) else
      push_str_literal_go fail r2.1 rest
    else
      let r := wr fail fs
        (if ch < ' ' then "\\u" ++ hex4 ch.toNat else String.singleton ch)
      if r.2 then push_str_literal_go fail r.1 rest else (r.1, false)

/-- `push_str_literal` of `kvjson.rs`: always quoted; the body is written
verbatim when no character needs an escape, per-character otherwise. -/
def push_str_literal (fail : Nat → Bool) (fs : FmtState) (val : String) :
    FmtState × Bool :=
  let r := wr fail fs "\""
  if !r.2 then (r.1, false) else
  let r2 :=
    if val.toList.any (fun ch => ch < ' ' || ch == '\"' || ch == '\\') then
      push_str_literal_go fail r.1 val.toList
    else wr fail r.1 val
  if !r2.2 then (r2.1, false) else
  wr fail r2.1 "\""

/-- `Visitor::push_key` of `kvjson.rs`: write the pending separator, set
it to a comma, clear `empty`, then write the quoted key and a colon when a
key is present. -/
def push_key (fail : Nat → Bool) (s : VState) (key : Option String) : VState :=
  let s1 := vwrite fail s s.pfx
  let s2 := { s1 with pfx := ",", empty := false }
  match key with
  | none => s2
  | some k =>
    let s3 := vcatch s2 (push_str_literal fail s2.fs k)
    vwrite fail s3 ":"

/-- One `LogVisitor` method call of the JSON renderer. -/
def step (fd : F64 → String) (fail : Nat → Bool) (s : VState) : Ev → VState
  | .kv_u64 key v => vwrite fail (push_key fail s key) (toString v)
  | .kv_i64 key v => vwrite fail (push_key fail s key) (toString v)
  | .kv_f64 key v => vwrite fail (push_key fail s key) (fd v)
  | .kv_bool key v =>
    vwrite fail (push_key fail s key) (if v then "true" else "false")
  | .kv_null key => vwrite fail (push_key fail s key) "null"
  | .kv_str key v =>
    let s1 := push_key fail s key
    vcatch s1 (push_str_literal fail s1.fs v)
  | .kv_fmt key v =>
    let s1 := push_key fail s key
    let s2 := { s1 with error := s1.error || !v.2 }
    vcatch s2 (push_str_literal fail s2.fs v.1)
  | .kv_map key => setPfx (vwrite fail (push_key fail s key) "\x7b") ""
  | .kv_mapend _ => setPfx (vwrite fail s "\x7d") ","
  | .kv_arr key => setPfx (vwrite fail (push_key fail s key) "[") ""
  | .kv_arrend _ => setPfx (vwrite fail s "]") ","

/-- Run the traversal callback against the JSON visitor. -/
def run (fd : F64 → String) (fail : Nat → Bool) (evs : List Ev)
    (s : VState) : VState :=
  evs.foldl (step fd fail) s

/-- `impl Display for KvToJson`: identical driver shape to the single-line
renderer. -/
def fmt (fd : F64 → String) (fail : Nat → Bool) (kvscan : List Ev)
    (pfx sfx : String) (init : FmtState) : FmtState × Bool :=
  let v := run fd fail kvscan { fs := init, pfx := pfx, empty := true, error := false }
  if v.error then (v.fs, false)
  else if v.empty then (v.fs, true)
  else wr fail v.fs sfx

end Kvjson

/-- Model of the Rust values for which `src/visit.rs` implements
`Visitable`.  Bounded integer types carry their mathematical value (the
`as u64` / `as i64` widening casts of the source are value-preserving on
every value of the narrower type); `f32v` carries the exact `f64` image of
the `f32`; `strv` covers both `&str` and `String`; `fmtargsv` is a
`std::fmt::Arguments` (text produced plus Display success, as in `Ev`);
`arrv` covers the slice/Vec/VecDeque/LinkedList/HashSet/BTreeSet/BinaryHeap
impls (all expand the same macro body over `iter()`, in iteration order);
`mapv` covers HashMap/BTreeMap with string-convertible keys. -/
inductive RustVal where
  | u8v (n : Nat)
  | u16v (n : Nat)
  | u32v (n : Nat)
  | u64v (n : Nat)
  | usizev (n : Nat)
  | i8v (n : Int)
  | i16v (n : Int)
  | i32v (n : Int)
  | i64v (n : Int)
  | isizev (n : Int)
  | f32v (x : F64)
  | f64v (x : F64)
  | boolv (b : Bool)
  | unitv
  | strv (s : String)
  | fmtargsv (p : String × Bool)
  | charv (c : Char)
  | u128v (n : Nat)
  | i128v (n : Int)
  | arrv (elems : List RustVal)
  | mapv (entries : List (String × RustVal))

mutual

/-- The `Visitable::visit` impls of `src/visit.rs`, as the sequence of
`LogVisitor` calls they make.  `char`, `u128` and `i128` go through
`kv_fmt` with their default Display text (which never fails). -/
def visit : RustVal → Option String → List Ev
  | .u8v n, key => [.kv_u64 key n]
  | .u16v n, key => [.kv_u64 key n]
  | .u32v n, key => [.kv_u64 key n]
  | .u64v n, key => [.kv_u64 key n]
  | .usizev n, key => [.kv_u64 key n]
  | .i8v n, key => [.kv_i64 key n]
  | .i16v n, key => [.kv_i64 key n]
  | .i32v n, key => [.kv_i64 key n]
  | .i64v n, key => [.kv_i64 key n]
  | .isizev n, key => [.kv_i64 key n]
  | .f32v x, key => [.kv_f64 key x]
  | .f64v x, key => [.kv_f64 key x]
  | .boolv b, key => [.kv_bool key b]
  | .unitv, key => [.kv_null key]
  | .strv s, key => [.kv_str key s]
  | .fmtargsv p, key => [.kv_fmt key p]
  | .charv c, key => [.kv_fmt key (String.singleton c, true)]
  | .u128v n, key => [.kv_fmt key (toString n, true)]
  | .i128v n, key => [.kv_fmt key (toString n, true)]
  | .arrv elems, key => Ev.kv_arr key :: (visitElems elems ++ [Ev.kv_arrend key])
  | .mapv entries, key => Ev.kv_map key :: (visitEntries entries ++ [Ev.kv_mapend key])

/-- `for v in self.iter() { v.visit(None, output); }` of the array-like
impls. -/
def visitElems : List RustVal → List Ev
  | [] => []
  | v :: rest => visit v none ++ visitElems rest

/-- `for (k, v) in self { v.visit(Some(k.as_ref()), output); }` of the
map-like impls. -/
def visitEntries : List (String × RustVal) → List Ev
  | [] => []
  | (k, v) :: rest => visit v (some k) ++ visitEntries rest

end

/-- A well-nested logical item: the event sequences considered by the
separator claims are exactly the flattenings of lists of these.  `fmti`
is a lazily-formatted value whose Display succeeded. -/
inductive Item where
  | u64i (key : Option String) (v : Nat)
  | i64i (key : Option String) (v : Int)
  | f64i (key : Option String) (v : F64)
  | booli (key : Option String) (v : Bool)
  | nulli (key : Option String)
  | stri (key : Option String) (v : String)
  | fmti (key : Option String) (v : String)
  | mapi (key : Option String) (children : List Item)
  | arri (key : Option String) (children : List Item)

mutual

/-- Event sequence of one well-nested item. -/
def evsOfItem : Item → List Ev
  | .u64i key v => [.kv_u64 key v]
  | .i64i key v => [.kv_i64 key v]
  | .f64i key v => [.kv_f64 key v]
  | .booli key v => [.kv_bool key v]
  | .nulli key => [.kv_null key]
  | .stri key v => [.kv_str key v]
  | .fmti key v => [.kv_fmt key (v, true)]
  | .mapi key cs => Ev.kv_map key :: (evsOfItems cs ++ [Ev.kv_mapend key])
  | .arri key cs => Ev.kv_arr key :: (evsOfItems cs ++ [Ev.kv_arrend key])

/-- Event sequence of a list of sibling items. -/
def evsOfItems : List Item → List Ev
  | [] => []
  | i :: rest => evsOfItem i ++ evsOfItems rest

end

/-- Concatenation of a per-character text function over a character list. -/
def concatStr (f : Char → String) : List Char → String
  | [] => ""
  | c :: cs => f c ++ concatStr f cs

/-- Spec-side reserved-character set of the single-line encoding, written
from the specification text: all characters at most the space, plus the
quote, equals sign, backslash and the four brackets. -/
def specReserved (ch : Char) : Bool :=
  ch ≤ ' ' || ch == '\"' || ch == '=' || ch == '\\' || ch == '[' ||
    ch == ']' || ch == '\x7b' || ch == '\x7d'

/-- Spec-side in-quotes escaping of one character of a single-line string
value: exactly the characters below space, the quote and the backslash
become a backslash and the two-digit uppercase hex of the byte; everything
else passes through. -/
def specEscCharSL (ch : Char) : String :=
  if ch < ' ' || ch == '\"' || ch == '\\' then "\\" ++ hex2 ch.toNat
  else String.singleton ch

/-- Spec-side single-line rendering of a string value (claim C2): verbatim
when it contains no reserved character, otherwise the whole value wrapped
in quotes with the per-character rule applied inside. -/
def specStrValSL (val : String) : String :=
  if val.toList.any specReserved then
    "\"" ++ concatStr specEscCharSL val.toList ++ "\""
  else val

/-- Spec-side escaping of one key character of the single-line encoding:
every reserved character individually becomes its two-digit hex escape. -/
def specKeyCharSL (ch : Char) : String :=
  if specReserved ch then "\\" ++ hex2 ch.toNat else String.singleton ch

/-- Spec-side single-line rendering of a key (claim C8): never quoted,
reserved characters escaped individually, empty key rendered as the
escape of the space character. -/
def specKeySL (k : String) : String :=
  if k = "" then "\\20" else concatStr specKeyCharSL k.toList

/-- Spec-side JSON escaping of one character (claim C3): quote and
backslash get a leading backslash, control characters below space become
a four-uppercase-hex-digit unicode escape, everything else (including
non-ASCII) passes through. -/
def specEscCharJSON (ch : Char) : String :=
  if ch == '\"' || ch == '\\' then "\\" ++ String.singleton ch
  else if ch < ' ' then "\\u00" ++ hex2 ch.toNat
  else String.singleton ch

/-- Spec-side JSON string literal: always double-quoted, escaped per
character. -/
def specStrJSON (val : String) : String :=
  "\"" ++ concatStr specEscCharJSON val.toList ++ "\""

/-- Text the single-line renderer produces for a key position: nothing for
an absent key, else the escaped key followed by the separator character
(such as the equals sign) when one applies. -/
def slKeyText (key : Option String) (sep : Option Char) : String :=
  match key with
  | none => ""
  | some k =>
    specKeySL k ++ (match sep with | none => "" | some c => String.singleton c)

/-- Text the JSON renderer produces for a key position: nothing for an
absent key, else the quoted key and a colon. -/
def jsKeyText (key : Option String) : String :=
  match key with
  | none => ""
  | some k => specStrJSON k ++ ":"

mutual

/-- Spec-side single-line rendering of one item, with siblings inside a
container separated by single spaces. -/
def specItemSL (fd : F64 → String) : Item → String
  | .u64i key v => slKeyText key (some '=') ++ toString v
  | .i64i key v => slKeyText key (some '=') ++ toString v
  | .f64i key v => slKeyText key (some '=') ++ fd v
  | .booli key v => slKeyText key (some '=') ++ (if v then "true" else "false")
  | .nulli key => slKeyText key none
  | .stri key v => slKeyText key (some '=') ++ specStrValSL v
  | .fmti key v => slKeyText key (some '=') ++ specStrValSL v
  | .mapi key cs => slKeyText key none ++ "\x7b" ++ specItemsSL fd cs ++ "\x7d"
  | .arri key cs => slKeyText key none ++ "[" ++ specItemsSL fd cs ++ "]"

/-- Space-intercalated spec-side single-line rendering of sibling items:
exactly one space between adjacent siblings, none at the ends. -/
def specItemsSL (fd : F64 → String) : List Item → String
  | [] => ""
  | [i] => specItemSL fd i
  | i :: rest => specItemSL fd i ++ " " ++ specItemsSL fd rest

end

mutual

/-- Spec-side JSON rendering of one item. -/
def specItemJS (fd : F64 → String) : Item → String
  | .u64i key v => jsKeyText key ++ toString v
  | .i64i key v => jsKeyText key ++ toString v
  | .f64i key v => jsKeyText key ++ fd v
  | .booli key v => jsKeyText key ++ (if v then "true" else "false")
  | .nulli key => jsKeyText key ++ "null"
  | .stri key v => jsKeyText key ++ specStrJSON v
  | .fmti key v => jsKeyText key ++ specStrJSON v
  | .mapi key cs => jsKeyText key ++ "\x7b" ++ specItemsJS fd cs ++ "\x7d"
  | .arri key cs => jsKeyText key ++ "[" ++ specItemsJS fd cs ++ "]"

/-- Comma-intercalated spec-side JSON rendering of sibling items. -/
def specItemsJS (fd : F64 → String) : List Item → String
  | [] => ""
  | [i] => specItemJS fd i
  | i :: rest => specItemJS fd i ++ "," ++ specItemsJS fd rest

end

/-- Container-close events: the two protocol calls that do not go through
`push_key`. -/
def isClose : Ev → Bool
  | .kv_mapend _ => true
  | .kv_arrend _ => true
  | _ => false

/-- Whether an event's lazy formatting succeeded (`true` for every event
other than a failed `kv_fmt`). -/
def evFmtOk : Ev → Bool
  | .kv_fmt _ p => p.2
  | _ => true

/-- Erase the key argument of close events, which both renderers ignore. -/
def scrubClose : Ev → Ev
  | .kv_mapend _ => .kv_mapend none
  | .kv_arrend _ => .kv_arrend none
  | e => e

theorem wr_failNever (s : FmtState) (t : String) :
    wr failNever s t = ({ out := s.out ++ t, n := s.n + 1 }, true) := rfl

theorem vwrite_failNever (s : VState) (t : String) :
    vwrite failNever s t =
      { s with fs := { out := s.fs.out ++ t, n := s.fs.n + 1 } } := by
  simp [vwrite, vcatch, wr_failNever]

theorem hex2_mod (n : Nat) : hex2 (n % 256) = hex2 n := by
  unfold hex2
  have h1 : n % 256 / 16 % 16 = n / 16 % 16 := by omega
  have h2 : n % 256 % 16 = n % 16 := by omega
  rw [h1, h2]

theorem escXX_eq (ch : Char) : Kvdisp.escXX ch = "\\" ++ hex2 ch.toNat := by
  unfold Kvdisp.escXX
  rw [hex2_mod]

theorem is_reserved_eq : Kvdisp.is_reserved = specReserved := rfl

theorem hex4_small (n : Nat) (h : n < 32) :
    "\\u" ++ hex4 n = "\\u00" ++ hex2 n := by
  apply String.ext
  simp only [String.data_append, hex4, hex2]
  have h1 : n / 4096 % 16 = 0 := by omega
  have h2 : n / 256 % 16 = 0 := by omega
  rw [h1, h2]
  rfl

theorem slTok_eq (c : Char) :
    (if c < ' ' || c == '\"' || c == '\\' then Kvdisp.escXX c
     else String.singleton c) = specEscCharSL c := by
  simp only [specEscCharSL, escXX_eq]

theorem slKeyTok_eq (c : Char) :
    (if Kvdisp.is_reserved c then Kvdisp.escXX c else String.singleton c) =
      specKeyCharSL c := by
  simp only [specKeyCharSL, escXX_eq, is_reserved_eq]

theorem push_str_val_go_nf (l : List Char) : ∀ fs : FmtState,
    Kvdisp.push_str_val_go failNever fs l =
      ({ out := fs.out ++ concatStr specEscCharSL l, n := fs.n + l.length }, true) := by
  induction l with
  | nil =>
    intro fs
    simp [Kvdisp.push_str_val_go, concatStr]
  | cons c cs ih =>
    intro fs
    simp only [Kvdisp.push_str_val_go, wr_failNever, slTok_eq, concatStr,
      List.length_cons]
    rw [ih]
    simp [String.append_assoc]
    omega

theorem push_str_val_nf (fs : FmtState) (v : String) :
    ∃ m, Kvdisp.push_str_val failNever fs v =
      ({ out := fs.out ++ specStrValSL v, n := m }, true) := by
  unfold Kvdisp.push_str_val specStrValSL
  rw [is_reserved_eq]
  by_cases h : v.toList.any specReserved
  · refine ⟨fs.n + 1 + v.toList.length + 1, ?_⟩
    simp only [h, if_true, wr_failNever, push_str_val_go_nf]
    simp [String.append_assoc]
  · refine ⟨fs.n + 1, ?_⟩
    simp only [h, if_false, wr_failNever]
    simp [h]

theorem push_key_chars_nf (l : List Char) : ∀ s : VState,
    Kvdisp.push_key_chars failNever s l =
      { s with fs := { out := s.fs.out ++ concatStr specKeyCharSL l,
                       n := s.fs.n + l.length } } := by
  induction l with
  | nil =>
    intro s
    simp [Kvdisp.push_key_chars, concatStr]
  | cons c cs ih =>
    intro s
    simp only [Kvdisp.push_key_chars, vwrite_failNever, slKeyTok_eq, concatStr,
      List.length_cons]
    rw [ih]
    simp [String.append_assoc]
    omega

theorem push_key_nf (s : VState) (key : Option String) (sep : Option Char) :
    ∃ m, Kvdisp.push_key failNever s key sep =
      { fs := { out := s.fs.out ++ s.pfx ++ slKeyText key sep, n := m },
        pfx := " ", empty := false, error := s.error } := by
  cases key with
  | none =>
    refine ⟨s.fs.n + 1, ?_⟩
    simp [Kvdisp.push_key, vwrite_failNever, slKeyText]
  | some k =>
    by_cases hk : k.isEmpty
    · have hk0 : k = "" := (String.isEmpty_iff k).1 hk
      subst hk0
      cases sep with
      | none =>
        refine ⟨s.fs.n + 2, ?_⟩
        simp [Kvdisp.push_key, hk, vwrite_failNever, slKeyText, specKeySL,
          String.append_assoc]
      | some c =>
        refine ⟨s.fs.n + 3, ?_⟩
        simp [Kvdisp.push_key, hk, vwrite_failNever, slKeyText, specKeySL,
          String.append_assoc]
    · have hk1 : ¬(k = "") := fun h => hk (by subst h; rfl)
      cases sep with
      | none =>
        refine ⟨s.fs.n + 1 + k.toList.length, ?_⟩
        simp only [Kvdisp.push_key, vwrite_failNever, hk, if_false,
          push_key_chars_nf]
        simp [slKeyText, specKeySL, hk1, String.append_assoc]
      | some c =>
        refine ⟨s.fs.n + 1 + k.toList.length + 1, ?_⟩
        simp only [Kvdisp.push_key, vwrite_failNever, hk, if_false,
          push_key_chars_nf]
        simp [vwrite_failNever, slKeyText, specKeySL, hk1, String.append_assoc]

theorem sl_run_nil (fd : F64 → String) (fail : Nat → Bool) (s : VState) :
    Kvdisp.run fd fail [] s = s := rfl

theorem sl_run_cons (fd : F64 → String) (fail : Nat → Bool) (e : Ev)
    (evs : List Ev) (s : VState) :
    Kvdisp.run fd fail (e :: evs) s = Kvdisp.run fd fail evs (Kvdisp.step fd fail s e) := rfl

theorem sl_run_append (fd : F64 → String) (fail : Nat → Bool) (a b : List Ev)
    (s : VState) :
    Kvdisp.run fd fail (a ++ b) s = Kvdisp.run fd fail b (Kvdisp.run fd fail a s) := by
  simp [Kvdisp.run, List.foldl_append]

theorem sl_step_u64_nf (fd : F64 → String) (s : VState) (key : Option String)
    (v : Nat) :
    ∃ m, Kvdisp.step fd failNever s (.kv_u64 key v) =
      { fs := { out := s.fs.out ++ s.pfx ++ slKeyText key (some '=') ++ toString v, n := m },
        pfx := " ", empty := false, error := s.error } := by
  obtain ⟨m, hm⟩ := push_key_nf s key (some '=')
  exact ⟨m + 1, by simp [Kvdisp.step, hm, vwrite_failNever]⟩

theorem sl_step_i64_nf (fd : F64 → String) (s : VState) (key : Option String)
    (v : Int) :
    ∃ m, Kvdisp.step fd failNever s (.kv_i64 key v) =
      { fs := { out := s.fs.out ++ s.pfx ++ slKeyText key (some '=') ++ toString v, n := m },
        pfx := " ", empty := false, error := s.error } := by
  obtain ⟨m, hm⟩ := push_key_nf s key (some '=')
  exact ⟨m + 1, by simp [Kvdisp.step, hm, vwrite_failNever]⟩

theorem sl_step_f64_nf (fd : F64 → String) (s : VState) (key : Option String)
    (v : F64) :
    ∃ m, Kvdisp.step fd failNever s (.kv_f64 key v) =
      { fs := { out := s.fs.out ++ s.pfx ++ slKeyText key (some '=') ++ fd v, n := m },
        pfx := " ", empty := false, error := s.error } := by
  obtain ⟨m, hm⟩ := push_key_nf s key (some '=')
  exact ⟨m + 1, by simp [Kvdisp.step, hm, vwrite_failNever]⟩

theorem sl_step_bool_nf (fd : F64 → String) (s : VState) (key : Option String)
    (v : Bool) :
    ∃ m, Kvdisp.step fd failNever s (.kv_bool key v) =
      { fs := { out := s.fs.out ++ s.pfx ++ slKeyText key (some '=') ++
                  (if v then "true" else "false"), n := m },
        pfx := " ", empty := false, error := s.error } := by
  obtain ⟨m, hm⟩ := push_key_nf s key (some '=')
  exact ⟨m + 1, by simp [Kvdisp.step, hm, vwrite_failNever]⟩

theorem sl_step_null_nf (fd : F64 → String) (s : VState) (key : Option String) :
    ∃ m, Kvdisp.step fd failNever s (.kv_null key) =
      { fs := { out := s.fs.out ++ s.pfx ++ slKeyText key none, n := m },
        pfx := " ", empty := false, error := s.error } := by
  obtain ⟨m, hm⟩ := push_key_nf s key none
  exact ⟨m, by simp [Kvdisp.step, hm]⟩

theorem sl_step_str_nf (fd : F64 → String) (s : VState) (key : Option String)
    (v : String) :
    ∃ m, Kvdisp.step fd failNever s (.kv_str key v) =
      { fs := { out := s.fs.out ++ s.pfx ++ slKeyText key (some '=') ++ specStrValSL v, n := m },
        pfx := " ", empty := false, error := s.error } := by
  obtain ⟨m, hm⟩ := push_key_nf s key (some '=')
  obtain ⟨m2, hm2⟩ := push_str_val_nf
    ({ out := s.fs.out ++ s.pfx ++ slKeyText key (some '='), n := m } : FmtState) v
  refine ⟨m2, ?_⟩
  simp [Kvdisp.step, hm, vcatch, hm2]

theorem sl_step_fmt_nf (fd : F64 → String) (s : VState) (key : Option String)
    (v : String) :
    ∃ m, Kvdisp.step fd failNever s (.kv_fmt key (v, true)) =
      { fs := { out := s.fs.out ++ s.pfx ++ slKeyText key (some '=') ++ specStrValSL v, n := m },
        pfx := " ", empty := false, error := s.error } := by
  obtain ⟨m, hm⟩ := push_key_nf s key (some '=')
  obtain ⟨m2, hm2⟩ := push_str_val_nf
    ({ out := s.fs.out ++ s.pfx ++ slKeyText key (some '='), n := m } : FmtState) v
  refine ⟨m2, ?_⟩
  simp [Kvdisp.step, hm, vcatch, hm2]

theorem sl_step_map_nf (fd : F64 → String) (s : VState) (key : Option String) :
    ∃ m, Kvdisp.step fd failNever s (.kv_map key) =
      { fs := { out := s.fs.out ++ s.pfx ++ slKeyText key none ++ "\x7b", n := m },
        pfx := "", empty := false, error := s.error } := by
  obtain ⟨m, hm⟩ := push_key_nf s key none
  exact ⟨m + 1, by simp [Kvdisp.step, hm, vwrite_failNever, setPfx]⟩

theorem sl_step_arr_nf (fd : F64 → String) (s : VState) (key : Option String) :
    ∃ m, Kvdisp.step fd failNever s (.kv_arr key) =
      { fs := { out := s.fs.out ++ s.pfx ++ slKeyText key none ++ "[", n := m },
        pfx := "", empty := false, error := s.error } := by
  obtain ⟨m, hm⟩ := push_key_nf s key none
  exact ⟨m + 1, by simp [Kvdisp.step, hm, vwrite_failNever, setPfx]⟩

theorem sl_step_mapend_nf (fd : F64 → String) (s : VState) (key : Option String) :
    Kvdisp.step fd failNever s (.kv_mapend key) =
      { fs := { out := s.fs.out ++ "\x7d", n := s.fs.n + 1 },
        pfx := " ", empty := s.empty, error := s.error } := by
  simp [Kvdisp.step, vwrite_failNever, setPfx]

theorem sl_step_arrend_nf (fd : F64 → String) (s : VState) (key : Option String) :
    Kvdisp.step fd failNever s (.kv_arrend key) =
      { fs := { out := s.fs.out ++ "]", n := s.fs.n + 1 },
        pfx := " ", empty := s.empty, error := s.error } := by
  simp [Kvdisp.step, vwrite_failNever, setPfx]

theorem char_lt_space (c : Char) (h : (decide (c < ' ')) = true) :
    c.toNat < 32 := by
  rw [decide_eq_true_eq, Char.lt_def] at h
  exact h

theorem jsTok_eq (c : Char) (hc : (c == '\"' || c == '\\') = false) :
    (if c < ' ' then "\\u" ++ hex4 c.toNat else String.singleton c) =
      specEscCharJSON c := by
  rw [specEscCharJSON]
  simp only [hc, Bool.false_eq_true, if_false]
  by_cases h : c < ' '
  · rw [if_pos h, if_pos h]
    exact hex4_small c.toNat (by rw [Char.lt_def] at h; exact h)
  · rw [if_neg h, if_neg h]

theorem singleton_mk (c : Char) (l : List Char) :
    String.singleton c ++ String.mk l = String.mk (c :: l) := by
  apply String.ext
  simp [String.data_append, String.singleton]

theorem concatStr_id (l : List Char)
    (h : ∀ c ∈ l, (c < ' ' || c == '\"' || c == '\\') = false) :
    concatStr specEscCharJSON l = String.mk l := by
  induction l with
  | nil => rfl
  | cons c cs ih =>
    have hc := h c (by simp)
    simp only [Bool.or_eq_false_iff] at hc
    have hlt : ¬(c < ' ') := by simpa using hc.1.1
    have h1 : specEscCharJSON c = String.singleton c := by
      rw [specEscCharJSON]
      simp [hc.1.2, hc.2, hlt]
    rw [concatStr, ih (fun x hx => h x (by simp [hx])), h1, singleton_mk]

theorem push_str_literal_go_nf (l : List Char) : ∀ fs : FmtState,
    ∃ m, Kvjson.push_str_literal_go failNever fs l =
      ({ out := fs.out ++ concatStr specEscCharJSON l, n := m }, true) := by
  induction l with
  | nil =>
    intro fs
    exact ⟨fs.n, by simp [Kvjson.push_str_literal_go, concatStr]⟩
  | cons c cs ih =>
    intro fs
    by_cases hc : (c == '\"' || c == '\\') = true
    · obtain ⟨m, hm⟩ :=
        ih { out := fs.out ++ "\\" ++ String.singleton c, n := fs.n + 2 }
      refine ⟨m, ?_⟩
      simp only [Kvjson.push_str_literal_go, hc, if_true, wr_failNever]
      simp only [Bool.not_true, Bool.false_eq_true, if_false, hm, concatStr]
      have h1 : specEscCharJSON c = "\\" ++ String.singleton c := by
        rw [specEscCharJSON]
        simp [hc]
      rw [h1]
      simp [String.append_assoc]
    · have hc' : (c == '\"' || c == '\\') = false := by
        simp only [Bool.not_eq_true] at hc
        exact hc
      obtain ⟨m, hm⟩ := ih { out := fs.out ++ specEscCharJSON c, n := fs.n + 1 }
      refine ⟨m, ?_⟩
      simp only [Kvjson.push_str_literal_go, hc', Bool.false_eq_true, if_false,
        wr_failNever]
      simp only [jsTok_eq c hc', concatStr]
      rw [hm]
      simp [String.append_assoc]

theorem push_str_literal_nf (fs : FmtState) (v : String) :
    ∃ m, Kvjson.push_str_literal failNever fs v =
      ({ out := fs.out ++ specStrJSON v, n := m }, true) := by
  unfold Kvjson.push_str_literal specStrJSON
  by_cases h : v.toList.any (fun ch => ch < ' ' || ch == '\"' || ch == '\\')
  · obtain ⟨m, hm⟩ :=
      push_str_literal_go_nf v.toList { out := fs.out ++ "\"", n := fs.n + 1 }
    refine ⟨m + 1, ?_⟩
    simp only [wr_failNever, h, if_true]
    simp only [Bool.not_true, Bool.false_eq_true, if_false, hm]
    simp [String.append_assoc]
  · have hall : ∀ c ∈ v.toList, (c < ' ' || c == '\"' || c == '\\') = false := by
      simpa using h
    refine ⟨fs.n + 3, ?_⟩
    simp only [wr_failNever, h, Bool.false_eq_true, if_false]
    have hid : concatStr specEscCharJSON v.toList = v := by
      rw [concatStr_id v.toList hall]
      rfl
    rw [hid]
    simp [String.append_assoc]

theorem js_push_key_nf (s : VState) (key : Option String) :
    ∃ m, Kvjson.push_key failNever s key =
      { fs := { out := s.fs.out ++ s.pfx ++ jsKeyText key, n := m },
        pfx := ",", empty := false, error := s.error } := by
  cases key with
  | none =>
    exact ⟨s.fs.n + 1, by simp [Kvjson.push_key, vwrite_failNever, jsKeyText]⟩
  | some k =>
    obtain ⟨m, hm⟩ := push_str_literal_nf
      ({ out := s.fs.out ++ s.pfx, n := s.fs.n + 1 } : FmtState) k
    refine ⟨m + 1, ?_⟩
    simp [Kvjson.push_key, vwrite_failNever, vcatch, hm, jsKeyText,
      String.append_assoc]

theorem js_run_nil (fd : F64 → String) (fail : Nat → Bool) (s : VState) :
    Kvjson.run fd fail [] s = s := rfl

theorem js_run_cons (fd : F64 → String) (fail : Nat → Bool) (e : Ev)
    (evs : List Ev) (s : VState) :
    Kvjson.run fd fail (e :: evs) s = Kvjson.run fd fail evs (Kvjson.step fd fail s e) := rfl

theorem js_run_append (fd : F64 → String) (fail : Nat → Bool) (a b : List Ev)
    (s : VState) :
    Kvjson.run fd fail (a ++ b) s = Kvjson.run fd fail b (Kvjson.run fd fail a s) := by
  simp [Kvjson.run, List.foldl_append]

theorem js_step_u64_nf (fd : F64 → String) (s : VState) (key : Option String)
    (v : Nat) :
    ∃ m, Kvjson.step fd failNever s (.kv_u64 key v) =
      { fs := { out := s.fs.out ++ s.pfx ++ jsKeyText key ++ toString v, n := m },
        pfx := ",", empty := false, error := s.error } := by
  obtain ⟨m, hm⟩ := js_push_key_nf s key
  exact ⟨m + 1, by simp [Kvjson.step, hm, vwrite_failNever]⟩

theorem js_step_i64_nf (fd : F64 → String) (s : VState) (key : Option String)
    (v : Int) :
    ∃ m, Kvjson.step fd failNever s (.kv_i64 key v) =
      { fs := { out := s.fs.out ++ s.pfx ++ jsKeyText key ++ toString v, n := m },
        pfx := ",", empty := false, error := s.error } := by
  obtain ⟨m, hm⟩ := js_push_key_nf s key
  exact ⟨m + 1, by simp [Kvjson.step, hm, vwrite_failNever]⟩

theorem js_step_f64_nf (fd : F64 → String) (s : VState) (key : Option String)
    (v : F64) :
    ∃ m, Kvjson.step fd failNever s (.kv_f64 key v) =
      { fs := { out := s.fs.out ++ s.pfx ++ jsKeyText key ++ fd v, n := m },
        pfx := ",", empty := false, error := s.error } := by
  obtain ⟨m, hm⟩ := js_push_key_nf s key
  exact ⟨m + 1, by simp [Kvjson.step, hm, vwrite_failNever]⟩

theorem js_step_bool_nf (fd : F64 → String) (s : VState) (key : Option String)
    (v : Bool) :
    ∃ m, Kvjson.step fd failNever s (.kv_bool key v) =
      { fs := { out := s.fs.out ++ s.pfx ++ jsKeyText key ++
                  (if v then "true" else "false"), n := m },
        pfx := ",", empty := false, error := s.error } := by
  obtain ⟨m, hm⟩ := js_push_key_nf s key
  exact ⟨m + 1, by simp [Kvjson.step, hm, vwrite_failNever]⟩

theorem js_step_null_nf (fd : F64 → String) (s : VState) (key : Option String) :
    ∃ m, Kvjson.step fd failNever s (.kv_null key) =
      { fs := { out := s.fs.out ++ s.pfx ++ jsKeyText key ++ "null", n := m },
        pfx := ",", empty := false, error := s.error } := by
  obtain ⟨m, hm⟩ := js_push_key_nf s key
  exact ⟨m + 1, by simp [Kvjson.step, hm, vwrite_failNever]⟩

theorem js_step_str_nf (fd : F64 → String) (s : VState) (key : Option String)
    (v : String) :
    ∃ m, Kvjson.step fd failNever s (.kv_str key v) =
      { fs := { out := s.fs.out ++ s.pfx ++ jsKeyText key ++ specStrJSON v, n := m },
        pfx := ",", empty := false, error := s.error } := by
  obtain ⟨m, hm⟩ := js_push_key_nf s key
  obtain ⟨m2, hm2⟩ := push_str_literal_nf
    ({ out := s.fs.out ++ s.pfx ++ jsKeyText key, n := m } : FmtState) v
  refine ⟨m2, ?_⟩
  simp [Kvjson.step, hm, vcatch, hm2]

theorem js_step_fmt_nf (fd : F64 → String) (s : VState) (key : Option String)
    (v : String) :
    ∃ m, Kvjson.step fd failNever s (.kv_fmt key (v, true)) =
      { fs := { out := s.fs.out ++ s.pfx ++ jsKeyText key ++ specStrJSON v, n := m },
        pfx := ",", empty := false, error := s.error } := by
  obtain ⟨m, hm⟩ := js_push_key_nf s key
  obtain ⟨m2, hm2⟩ := push_str_literal_nf
    ({ out := s.fs.out ++ s.pfx ++ jsKeyText key, n := m } : FmtState) v
  refine ⟨m2, ?_⟩
  simp [Kvjson.step, hm, vcatch, hm2]

theorem js_step_map_nf (fd : F64 → String) (s : VState) (key : Option String) :
    ∃ m, Kvjson.step fd failNever s (.kv_map key) =
      { fs := { out := s.fs.out ++ s.pfx ++ jsKeyText key ++ "\x7b", n := m },
        pfx := "", empty := false, error := s.error } := by
  obtain ⟨m, hm⟩ := js_push_key_nf s key
  exact ⟨m + 1, by simp [Kvjson.step, hm, vwrite_failNever, setPfx]⟩

theorem js_step_arr_nf (fd : F64 → String) (s : VState) (key : Option String) :
    ∃ m, Kvjson.step fd failNever s (.kv_arr key) =
      { fs := { out := s.fs.out ++ s.pfx ++ jsKeyText key ++ "[", n := m },
        pfx := "", empty := false, error := s.error } := by
  obtain ⟨m, hm⟩ := js_push_key_nf s key
  exact ⟨m + 1, by simp [Kvjson.step, hm, vwrite_failNever, setPfx]⟩

theorem js_step_mapend_nf (fd : F64 → String) (s : VState) (key : Option String) :
    Kvjson.step fd failNever s (.kv_mapend key) =
      { fs := { out := s.fs.out ++ "\x7d", n := s.fs.n + 1 },
        pfx := ",", empty := s.empty, error := s.error } := by
  simp [Kvjson.step, vwrite_failNever, setPfx]

theorem js_step_arrend_nf (fd : F64 → String) (s : VState) (key : Option String) :
    Kvjson.step fd failNever s (.kv_arrend key) =
      { fs := { out := s.fs.out ++ "]", n := s.fs.n + 1 },
        pfx := ",", empty := s.empty, error := s.error } := by
  simp [Kvjson.step, vwrite_failNever, setPfx]

/-- C1: the literal scenario.  The events `kv_u64 "u64" 123456789`,
`kv_str "str" "ABCDEFGHIJ"`, `kv_map "map"`, `kv_bool "b" false`,
`kv_mapend "map"` rendered single-line with prefix a space and empty suffix
onto the existing text `dummy=1` yield exactly
`dummy=1 u64=123456789 str=ABCDEFGHIJ map{b=false}`, and rendered as JSON
with prefix a comma and empty suffix onto the open object text yield
exactly the comma-separated JSON fields, the closing brace being the
caller's job; both renders report success. -/
theorem C1_literal_scenario :
    (Kvdisp.fmt (fun _ => "") failNever
        [Ev.kv_u64 (some "u64") 123456789, Ev.kv_str (some "str") "ABCDEFGHIJ",
         Ev.kv_map (some "map"), Ev.kv_bool (some "b") false,
         Ev.kv_mapend (some "map")] " " "" { out := "dummy=1", n := 0 }).1.out =
      "dummy=1 u64=123456789 str=ABCDEFGHIJ map\x7bb=false\x7d" ∧
    (Kvdisp.fmt (fun _ => "") failNever
        [Ev.kv_u64 (some "u64") 123456789, Ev.kv_str (some "str") "ABCDEFGHIJ",
         Ev.kv_map (some "map"), Ev.kv_bool (some "b") false,
         Ev.kv_mapend (some "map")] " " "" { out := "dummy=1", n := 0 }).2 = true ∧
    (Kvjson.fmt (fun _ => "") failNever
        [Ev.kv_u64 (some "u64") 123456789, Ev.kv_str (some "str") "ABCDEFGHIJ",
         Ev.kv_map (some "map"), Ev.kv_bool (some "b") false,
         Ev.kv_mapend (some "map")] "," "" { out := "\x7b\"dummy\":1", n := 0 }).1.out =
      "\x7b\"dummy\":1,\"u64\":123456789,\"str\":\"ABCDEFGHIJ\",\"map\":\x7b\"b\":false\x7d" ∧
    (Kvjson.fmt (fun _ => "") failNever
        [Ev.kv_u64 (some "u64") 123456789, Ev.kv_str (some "str") "ABCDEFGHIJ",
         Ev.kv_map (some "map"), Ev.kv_bool (some "b") false,
         Ev.kv_mapend (some "map")] "," "" { out := "\x7b\"dummy\":1", n := 0 }).2 = true := by
  decide

/-- C2: every string value passed through `kv_str` in the single-line
renderer is emitted verbatim when it contains no reserved character, and
otherwise is wrapped whole in double quotes with exactly the characters
below space, the double quote and the backslash replaced by a backslash
and the two-digit uppercase hex of the byte, all other characters passing
through unchanged (`specStrValSL` restates this rule from the spec). -/
theorem C2_singleline_string_escaping :
    ∀ (fd : F64 → String) (s : VState) (key : Option String) (v : String),
      (Kvdisp.run fd failNever [Ev.kv_str key v] s).fs.out =
        s.fs.out ++ s.pfx ++ slKeyText key (some '=') ++ specStrValSL v ∧
      (Kvdisp.push_str_val failNever s.fs v).1.out = s.fs.out ++ specStrValSL v ∧
      (Kvdisp.push_str_val failNever s.fs v).2 = true := by
  intro fd s key v
  obtain ⟨m, hm⟩ := sl_step_str_nf fd s key v
  obtain ⟨m2, hm2⟩ := push_str_val_nf s.fs v
  refine ⟨?_, ?_, ?_⟩
  · rw [sl_run_cons, sl_run_nil, hm]
  · rw [hm2]
  · rw [hm2]

/-- C8: in the single-line renderer keys are never quoted: every reserved
character of a non-empty key is individually replaced by a backslash and
two uppercase hex digits of its byte value, other characters pass through,
and the empty key renders as the three-character placeholder `\20`
(`specKeySL` restates this rule from the spec). -/
theorem C8_singleline_key_escaping :
    ∀ (fd : F64 → String) (s : VState) (k : String) (sep : Option Char),
      (Kvdisp.run fd failNever [Ev.kv_null (some k)] s).fs.out =
        s.fs.out ++ s.pfx ++ specKeySL k ∧
      (Kvdisp.push_key failNever s (some k) sep).fs.out =
        s.fs.out ++ s.pfx ++ slKeyText (some k) sep ∧
      specKeySL "" = "\\20" := by
  intro fd s k sep
  obtain ⟨m, hm⟩ := sl_step_null_nf fd s (some k)
  obtain ⟨m2, hm2⟩ := push_key_nf s (some k) sep
  refine ⟨?_, ?_, rfl⟩
  · rw [sl_run_cons, sl_run_nil, hm]
    simp [slKeyText]
  · rw [hm2]

/-- C3: the JSON renderer always double-quotes keys and string values;
inside the quotes, control characters below space become a `\u00XX`
escape with uppercase hex digits, the quote and backslash get a leading
backslash, everything else (including non-ASCII) passes through
(`specStrJSON` restates this rule from the spec); a null scalar renders as
the literal `null`, and containers render with braces and brackets. -/
theorem C3_json_escaping :
    ∀ (fd : F64 → String) (s : VState) (k v : String),
      (Kvjson.push_str_literal failNever s.fs v).1.out = s.fs.out ++ specStrJSON v ∧
      (Kvjson.push_str_literal failNever s.fs v).2 = true ∧
      (Kvjson.run fd failNever [Ev.kv_str (some k) v] s).fs.out =
        s.fs.out ++ s.pfx ++ specStrJSON k ++ ":" ++ specStrJSON v ∧
      (Kvjson.run fd failNever [Ev.kv_null none] s).fs.out =
        s.fs.out ++ s.pfx ++ "null" ∧
      (Kvjson.run fd failNever [Ev.kv_map none, Ev.kv_mapend none] s).fs.out =
        s.fs.out ++ s.pfx ++ "\x7b" ++ "\x7d" ∧
      (Kvjson.run fd failNever [Ev.kv_arr none, Ev.kv_arrend none] s).fs.out =
        s.fs.out ++ s.pfx ++ "[" ++ "]" := by
  intro fd s k v
  obtain ⟨m1, hm1⟩ := push_str_literal_nf s.fs v
  obtain ⟨m2, hm2⟩ := js_step_str_nf fd s (some k) v
  obtain ⟨m3, hm3⟩ := js_step_null_nf fd s none
  obtain ⟨m4, hm4⟩ := js_step_map_nf fd s none
  obtain ⟨m5, hm5⟩ := js_step_arr_nf fd s none
  refine ⟨?_, ?_, ?_, ?_, ?_, ?_⟩
  · rw [hm1]
  · rw [hm1]
  · rw [js_run_cons, js_run_nil, hm2]
    simp [jsKeyText, String.append_assoc]
  · rw [js_run_cons, js_run_nil, hm3]
    simp [jsKeyText]
  · rw [js_run_cons, js_run_cons, js_run_nil, hm4,
      js_step_mapend_nf fd _ none]
    simp [jsKeyText]
  · rw [js_run_cons, js_run_cons, js_run_nil, hm5,
      js_step_arrend_nf fd _ none]
    simp [jsKeyText]

theorem vcatch_error_true (s : VState) (r : FmtState × Bool)
    (h : s.error = true) : (vcatch s r).error = true := by
  simp [vcatch, h]

theorem vwrite_error_true (fail : Nat → Bool) (s : VState) (t : String)
    (h : s.error = true) : (vwrite fail s t).error = true :=
  vcatch_error_true s _ h

theorem sl_pkc_error_mono (l : List Char) : ∀ (fail : Nat → Bool) (s : VState),
    s.error = true → (Kvdisp.push_key_chars fail s l).error = true := by
  induction l with
  | nil => intro fail s h; exact h
  | cons c cs ih =>
    intro fail s h
    exact ih fail _ (vwrite_error_true fail s _ h)

theorem sl_push_key_error_mono (fail : Nat → Bool) (s : VState)
    (key : Option String) (sep : Option Char) (h : s.error = true) :
    (Kvdisp.push_key fail s key sep).error = true := by
  have h1 : (vwrite fail s s.pfx).error = true := vwrite_error_true fail s s.pfx h
  unfold Kvdisp.push_key
  cases key with
  | none => exact h1
  | some k =>
    have h2 : ((if k.isEmpty then
        vwrite fail { vwrite fail s s.pfx with empty := false, pfx := " " } "\\20"
      else Kvdisp.push_key_chars fail
        { vwrite fail s s.pfx with empty := false, pfx := " " } k.toList)).error
        = true := by
      by_cases hk : k.isEmpty
      · simp only [hk, if_true]
        exact vwrite_error_true _ _ _ h1
      · simp only [hk, Bool.false_eq_true, if_false]
        exact sl_pkc_error_mono _ _ _ h1
    cases sep with
    | none => exact h2
    | some c => exact vwrite_error_true _ _ _ h2

theorem sl_step_error_mono (fd : F64 → String) (fail : Nat → Bool) (s : VState)
    (e : Ev) (h : s.error = true) : (Kvdisp.step fd fail s e).error = true := by
  cases e with
  | kv_u64 key v =>
    exact vwrite_error_true _ _ _ (sl_push_key_error_mono fail s key (some '=') h)
  | kv_i64 key v =>
    exact vwrite_error_true _ _ _ (sl_push_key_error_mono fail s key (some '=') h)
  | kv_f64 key v =>
    exact vwrite_error_true _ _ _ (sl_push_key_error_mono fail s key (some '=') h)
  | kv_bool key v =>
    exact vwrite_error_true _ _ _ (sl_push_key_error_mono fail s key (some '=') h)
  | kv_null key => exact sl_push_key_error_mono fail s key none h
  | kv_str key v =>
    exact vcatch_error_true _ _ (sl_push_key_error_mono fail s key (some '=') h)
  | kv_fmt key v =>
    refine vcatch_error_true _ _ ?_
    have h1 := sl_push_key_error_mono fail s key (some '=') h
    simp [h1]
  | kv_map key =>
    exact vwrite_error_true _ _ _ (sl_push_key_error_mono fail s key none h)
  | kv_mapend key => exact vwrite_error_true _ _ _ h
  | kv_arr key =>
    exact vwrite_error_true _ _ _ (sl_push_key_error_mono fail s key none h)
  | kv_arrend key => exact vwrite_error_true _ _ _ h

theorem sl_run_error_mono (fd : F64 → String) (fail : Nat → Bool)
    (evs : List Ev) : ∀ s : VState, s.error = true →
    (Kvdisp.run fd fail evs s).error = true := by
  induction evs with
  | nil => intro s h; exact h
  | cons e rest ih =>
    intro s h
    exact ih _ (sl_step_error_mono fd fail s e h)

theorem js_push_key_error_mono (fail : Nat → Bool) (s : VState)
    (key : Option String) (h : s.error = true) :
    (Kvjson.push_key fail s key).error = true := by
  have h1 : (vwrite fail s s.pfx).error = true := vwrite_error_true fail s s.pfx h
  unfold Kvjson.push_key
  cases key with
  | none => exact h1
  | some k => exact vwrite_error_true _ _ _ (vcatch_error_true _ _ h1)

theorem js_step_error_mono (fd : F64 → String) (fail : Nat → Bool) (s : VState)
    (e : Ev) (h : s.error = true) : (Kvjson.step fd fail s e).error = true := by
  cases e with
  | kv_u64 key v => exact vwrite_error_true _ _ _ (js_push_key_error_mono fail s key h)
  | kv_i64 key v => exact vwrite_error_true _ _ _ (js_push_key_error_mono fail s key h)
  | kv_f64 key v => exact vwrite_error_true _ _ _ (js_push_key_error_mono fail s key h)
  | kv_bool key v => exact vwrite_error_true _ _ _ (js_push_key_error_mono fail s key h)
  | kv_null key => exact vwrite_error_true _ _ _ (js_push_key_error_mono fail s key h)
  | kv_str key v => exact vcatch_error_true _ _ (js_push_key_error_mono fail s key h)
  | kv_fmt key v =>
    refine vcatch_error_true _ _ ?_
    have h1 := js_push_key_error_mono fail s key h
    simp [h1]
  | kv_map key => exact vwrite_error_true _ _ _ (js_push_key_error_mono fail s key h)
  | kv_mapend key => exact vwrite_error_true _ _ _ h
  | kv_arr key => exact vwrite_error_true _ _ _ (js_push_key_error_mono fail s key h)
  | kv_arrend key => exact vwrite_error_true _ _ _ h

theorem js_run_error_mono (fd : F64 → String) (fail : Nat → Bool)
    (evs : List Ev) : ∀ s : VState, s.error = true →
    (Kvjson.run fd fail evs s).error = true := by
  induction evs with
  | nil => intro s h; exact h
  | cons e rest ih =>
    intro s h
    exact ih _ (js_step_error_mono fd fail s e h)

theorem sl_step_error_keep (fd : F64 → String) (s : VState) (e : Ev)
    (he : evFmtOk e = true) :
    (Kvdisp.step fd failNever s e).error = s.error := by
  cases e with
  | kv_u64 key v => obtain ⟨m, hm⟩ := sl_step_u64_nf fd s key v; rw [hm]
  | kv_i64 key v => obtain ⟨m, hm⟩ := sl_step_i64_nf fd s key v; rw [hm]
  | kv_f64 key v => obtain ⟨m, hm⟩ := sl_step_f64_nf fd s key v; rw [hm]
  | kv_bool key v => obtain ⟨m, hm⟩ := sl_step_bool_nf fd s key v; rw [hm]
  | kv_null key => obtain ⟨m, hm⟩ := sl_step_null_nf fd s key; rw [hm]
  | kv_str key v => obtain ⟨m, hm⟩ := sl_step_str_nf fd s key v; rw [hm]
  | kv_fmt key v =>
    obtain ⟨txt, ok⟩ := v
    have hok : ok = true := by simpa [evFmtOk] using he
    subst hok
    obtain ⟨m, hm⟩ := sl_step_fmt_nf fd s key txt
    rw [hm]
  | kv_map key => obtain ⟨m, hm⟩ := sl_step_map_nf fd s key; rw [hm]
  | kv_mapend key => rw [sl_step_mapend_nf]
  | kv_arr key => obtain ⟨m, hm⟩ := sl_step_arr_nf fd s key; rw [hm]
  | kv_arrend key => rw [sl_step_arrend_nf]

theorem sl_run_error_keep (fd : F64 → String) (evs : List Ev)
    (hall : evs.all evFmtOk = true) : ∀ s : VState,
    (Kvdisp.run fd failNever evs s).error = s.error := by
  induction evs with
  | nil => intro s; rfl
  | cons e rest ih =>
    intro s
    simp only [List.all_cons, Bool.and_eq_true] at hall
    rw [sl_run_cons, ih hall.2, sl_step_error_keep fd s e hall.1]

theorem js_step_error_keep (fd : F64 → String) (s : VState) (e : Ev)
    (he : evFmtOk e = true) :
    (Kvjson.step fd failNever s e).error = s.error := by
  cases e with
  | kv_u64 key v => obtain ⟨m, hm⟩ := js_step_u64_nf fd s key v; rw [hm]
  | kv_i64 key v => obtain ⟨m, hm⟩ := js_step_i64_nf fd s key v; rw [hm]
  | kv_f64 key v => obtain ⟨m, hm⟩ := js_step_f64_nf fd s key v; rw [hm]
  | kv_bool key v => obtain ⟨m, hm⟩ := js_step_bool_nf fd s key v; rw [hm]
  | kv_null key => obtain ⟨m, hm⟩ := js_step_null_nf fd s key; rw [hm]
  | kv_str key v => obtain ⟨m, hm⟩ := js_step_str_nf fd s key v; rw [hm]
  | kv_fmt key v =>
    obtain ⟨txt, ok⟩ := v
    have hok : ok = true := by simpa [evFmtOk] using he
    subst hok
    obtain ⟨m, hm⟩ := js_step_fmt_nf fd s key txt
    rw [hm]
  | kv_map key => obtain ⟨m, hm⟩ := js_step_map_nf fd s key; rw [hm]
  | kv_mapend key => rw [js_step_mapend_nf]
  | kv_arr key => obtain ⟨m, hm⟩ := js_step_arr_nf fd s key; rw [hm]
  | kv_arrend key => rw [js_step_arrend_nf]

theorem js_run_error_keep (fd : F64 → String) (evs : List Ev)
    (hall : evs.all evFmtOk = true) : ∀ s : VState,
    (Kvjson.run fd failNever evs s).error = s.error := by
  induction evs with
  | nil => intro s; rfl
  | cons e rest ih =>
    intro s
    simp only [List.all_cons, Bool.and_eq_true] at hall
    rw [js_run_cons, ih hall.2, js_step_error_keep fd s e hall.1]

theorem append3_exists (a b c d : String) (h : a = b ++ c ++ d) :
    ∃ t, a = b ++ t :=
  ⟨c ++ d, by rw [h]; simp [String.append_assoc]⟩

theorem append4_exists (a b c d e : String) (h : a = b ++ c ++ d ++ e) :
    ∃ t, a = b ++ t :=
  ⟨c ++ (d ++ e), by rw [h]; simp [String.append_assoc]⟩

theorem sl_step_out_append (fd : F64 → String) (s : VState) (e : Ev) :
    ∃ t, (Kvdisp.step fd failNever s e).fs.out = s.fs.out ++ t := by
  cases e with
  | kv_u64 key v =>
    obtain ⟨m, hm⟩ := sl_step_u64_nf fd s key v
    exact append4_exists _ _ _ _ _ (by rw [hm])
  | kv_i64 key v =>
    obtain ⟨m, hm⟩ := sl_step_i64_nf fd s key v
    exact append4_exists _ _ _ _ _ (by rw [hm])
  | kv_f64 key v =>
    obtain ⟨m, hm⟩ := sl_step_f64_nf fd s key v
    exact append4_exists _ _ _ _ _ (by rw [hm])
  | kv_bool key v =>
    obtain ⟨m, hm⟩ := sl_step_bool_nf fd s key v
    exact append4_exists _ _ _ _ _ (by rw [hm])
  | kv_null key =>
    obtain ⟨m, hm⟩ := sl_step_null_nf fd s key
    exact append3_exists _ _ _ _ (by rw [hm])
  | kv_str key v =>
    obtain ⟨m, hm⟩ := sl_step_str_nf fd s key v
    exact append4_exists _ _ _ _ _ (by rw [hm])
  | kv_fmt key v =>
    obtain ⟨m, hm⟩ := push_key_nf s key (some '=')
    obtain ⟨m2, hm2⟩ := push_str_val_nf
      ({ out := s.fs.out ++ s.pfx ++ slKeyText key (some '='), n := m } : FmtState) v.1
    refine append4_exists _ _ _ _ _ (?_ :
      (Kvdisp.step fd failNever s (Ev.kv_fmt key v)).fs.out =
        s.fs.out ++ s.pfx ++ slKeyText key (some '=') ++ specStrValSL v.1)
    simp only [Kvdisp.step, hm, vcatch, hm2]
  | kv_map key =>
    obtain ⟨m, hm⟩ := sl_step_map_nf fd s key
    exact append4_exists _ _ _ _ _ (by rw [hm])
  | kv_mapend key =>
    exact ⟨"\x7d", by rw [sl_step_mapend_nf]⟩
  | kv_arr key =>
    obtain ⟨m, hm⟩ := sl_step_arr_nf fd s key
    exact append4_exists _ _ _ _ _ (by rw [hm])
  | kv_arrend key =>
    exact ⟨"]", by rw [sl_step_arrend_nf]⟩

theorem sl_run_out_append (fd : F64 → String) (evs : List Ev) :
    ∀ s : VState, ∃ t, (Kvdisp.run fd failNever evs s).fs.out = s.fs.out ++ t := by
  induction evs with
  | nil => intro s; exact ⟨"", by simp [sl_run_nil]⟩
  | cons e rest ih =>
    intro s
    obtain ⟨t1, h1⟩ := sl_step_out_append fd s e
    obtain ⟨t2, h2⟩ := ih (Kvdisp.step fd failNever s e)
    exact ⟨t1 ++ t2, by rw [sl_run_cons, h2, h1]; simp [String.append_assoc]⟩

theorem js_step_out_append (fd : F64 → String) (s : VState) (e : Ev) :
    ∃ t, (Kvjson.step fd failNever s e).fs.out = s.fs.out ++ t := by
  cases e with
  | kv_u64 key v =>
    obtain ⟨m, hm⟩ := js_step_u64_nf fd s key v
    exact append4_exists _ _ _ _ _ (by rw [hm])
  | kv_i64 key v =>
    obtain ⟨m, hm⟩ := js_step_i64_nf fd s key v
    exact append4_exists _ _ _ _ _ (by rw [hm])
  | kv_f64 key v =>
    obtain ⟨m, hm⟩ := js_step_f64_nf fd s key v
    exact append4_exists _ _ _ _ _ (by rw [hm])
  | kv_bool key v =>
    obtain ⟨m, hm⟩ := js_step_bool_nf fd s key v
    exact append4_exists _ _ _ _ _ (by rw [hm])
  | kv_null key =>
    obtain ⟨m, hm⟩ := js_step_null_nf fd s key
    exact append4_exists _ _ _ _ _ (by rw [hm])
  | kv_str key v =>
    obtain ⟨m, hm⟩ := js_step_str_nf fd s key v
    exact append4_exists _ _ _ _ _ (by rw [hm])
  | kv_fmt key v =>
    obtain ⟨m, hm⟩ := js_push_key_nf s key
    obtain ⟨m2, hm2⟩ := push_str_literal_nf
      ({ out := s.fs.out ++ s.pfx ++ jsKeyText key, n := m } : FmtState) v.1
    refine append4_exists _ _ _ _ _ (?_ :
      (Kvjson.step fd failNever s (Ev.kv_fmt key v)).fs.out =
        s.fs.out ++ s.pfx ++ jsKeyText key ++ specStrJSON v.1)
    simp only [Kvjson.step, hm, vcatch, hm2]
  | kv_map key =>
    obtain ⟨m, hm⟩ := js_step_map_nf fd s key
    exact append4_exists _ _ _ _ _ (by rw [hm])
  | kv_mapend key =>
    exact ⟨"\x7d", by rw [js_step_mapend_nf]⟩
  | kv_arr key =>
    obtain ⟨m, hm⟩ := js_step_arr_nf fd s key
    exact append4_exists _ _ _ _ _ (by rw [hm])
  | kv_arrend key =>
    exact ⟨"]", by rw [js_step_arrend_nf]⟩

theorem js_run_out_append (fd : F64 → String) (evs : List Ev) :
    ∀ s : VState, ∃ t, (Kvjson.run fd failNever evs s).fs.out = s.fs.out ++ t := by
  induction evs with
  | nil => intro s; exact ⟨"", by simp [js_run_nil]⟩
  | cons e rest ih =>
    intro s
    obtain ⟨t1, h1⟩ := js_step_out_append fd s e
    obtain ⟨t2, h2⟩ := ih (Kvjson.step fd failNever s e)
    exact ⟨t1 ++ t2, by rw [js_run_cons, h2, h1]; simp [String.append_assoc]⟩

theorem vcatch_empty (s : VState) (r : FmtState × Bool) :
    (vcatch s r).empty = s.empty := rfl

theorem vwrite_empty (fail : Nat → Bool) (s : VState) (t : String) :
    (vwrite fail s t).empty = s.empty := rfl

theorem sl_pkc_empty (l : List Char) : ∀ (fail : Nat → Bool) (s : VState),
    (Kvdisp.push_key_chars fail s l).empty = s.empty := by
  induction l with
  | nil => intro fail s; rfl
  | cons c cs ih =>
    intro fail s
    rw [Kvdisp.push_key_chars, ih, vwrite_empty]

theorem sl_push_key_empty (fail : Nat → Bool) (s : VState) (key : Option String)
    (sep : Option Char) : (Kvdisp.push_key fail s key sep).empty = false := by
  unfold Kvdisp.push_key
  cases key with
  | none => rfl
  | some k =>
    have h2 : ((if k.isEmpty then
        vwrite fail { vwrite fail s s.pfx with empty := false, pfx := " " } "\\20"
      else Kvdisp.push_key_chars fail
        { vwrite fail s s.pfx with empty := false, pfx := " " } k.toList)).empty
        = false := by
      by_cases hk : k.isEmpty
      · simp only [hk, if_true]
        rfl
      · simp only [hk, Bool.false_eq_true, if_false]
        rw [sl_pkc_empty]
    cases sep with
    | none => exact h2
    | some c => rw [vwrite_empty]; exact h2

theorem sl_step_empty (fd : F64 → String) (fail : Nat → Bool) (s : VState)
    (e : Ev) :
    (Kvdisp.step fd fail s e).empty = (if isClose e then s.empty else false) := by
  cases e with
  | kv_u64 key v => simp [isClose, Kvdisp.step, vwrite_empty, sl_push_key_empty]
  | kv_i64 key v => simp [isClose, Kvdisp.step, vwrite_empty, sl_push_key_empty]
  | kv_f64 key v => simp [isClose, Kvdisp.step, vwrite_empty, sl_push_key_empty]
  | kv_bool key v => simp [isClose, Kvdisp.step, vwrite_empty, sl_push_key_empty]
  | kv_null key => simp [isClose, Kvdisp.step, sl_push_key_empty]
  | kv_str key v => simp [isClose, Kvdisp.step, vcatch_empty, sl_push_key_empty]
  | kv_fmt key v =>
    show (vcatch _ _).empty = _
    rw [vcatch_empty]
    simp only [isClose, if_false, Bool.false_eq_true]
    exact sl_push_key_empty fail s key (some '=')
  | kv_map key => simp [isClose, Kvdisp.step, setPfx, vwrite_empty, sl_push_key_empty]
  | kv_mapend key => simp [isClose, Kvdisp.step, setPfx, vwrite_empty]
  | kv_arr key => simp [isClose, Kvdisp.step, setPfx, vwrite_empty, sl_push_key_empty]
  | kv_arrend key => simp [isClose, Kvdisp.step, setPfx, vwrite_empty]

theorem js_push_key_empty (fail : Nat → Bool) (s : VState)
    (key : Option String) : (Kvjson.push_key fail s key).empty = false := by
  unfold Kvjson.push_key
  cases key with
  | none => rfl
  | some k => rfl

theorem js_step_empty (fd : F64 → String) (fail : Nat → Bool) (s : VState)
    (e : Ev) :
    (Kvjson.step fd fail s e).empty = (if isClose e then s.empty else false) := by
  cases e with
  | kv_u64 key v => simp [isClose, Kvjson.step, vwrite_empty, js_push_key_empty]
  | kv_i64 key v => simp [isClose, Kvjson.step, vwrite_empty, js_push_key_empty]
  | kv_f64 key v => simp [isClose, Kvjson.step, vwrite_empty, js_push_key_empty]
  | kv_bool key v => simp [isClose, Kvjson.step, vwrite_empty, js_push_key_empty]
  | kv_null key => simp [isClose, Kvjson.step, vwrite_empty, js_push_key_empty]
  | kv_str key v => simp [isClose, Kvjson.step, vcatch_empty, js_push_key_empty]
  | kv_fmt key v =>
    show (vcatch _ _).empty = _
    rw [vcatch_empty]
    simp only [isClose, if_false, Bool.false_eq_true]
    exact js_push_key_empty fail s key
  | kv_map key => simp [isClose, Kvjson.step, setPfx, vwrite_empty, js_push_key_empty]
  | kv_mapend key => simp [isClose, Kvjson.step, setPfx, vwrite_empty]
  | kv_arr key => simp [isClose, Kvjson.step, setPfx, vwrite_empty, js_push_key_empty]
  | kv_arrend key => simp [isClose, Kvjson.step, setPfx, vwrite_empty]

theorem sl_run_empty_false (fd : F64 → String) (evs : List Ev) :
    ∀ s : VState, s.empty = false →
    (Kvdisp.run fd failNever evs s).empty = false := by
  induction evs with
  | nil => intro s h; exact h
  | cons e rest ih =>
    intro s h
    refine ih _ ?_
    rw [sl_step_empty]
    by_cases hc : isClose e = true
    · simp [hc, h]
    · simp only [Bool.not_eq_true] at hc
      simp [hc]

theorem js_run_empty_false (fd : F64 → String) (evs : List Ev) :
    ∀ s : VState, s.empty = false →
    (Kvjson.run fd failNever evs s).empty = false := by
  induction evs with
  | nil => intro s h; exact h
  | cons e rest ih =>
    intro s h
    refine ih _ ?_
    rw [js_step_empty]
    by_cases hc : isClose e = true
    · simp [hc, h]
    · simp only [Bool.not_eq_true] at hc
      simp [hc]

theorem append4_exists2 (a b c d e : String) (h : a = b ++ c ++ d ++ e) :
    ∃ t, a = b ++ c ++ t :=
  ⟨d ++ e, by rw [h]; simp [String.append_assoc]⟩

theorem sl_step_open_out (fd : F64 → String) (s : VState) (e : Ev)
    (he : isClose e = false) :
    ∃ t, (Kvdisp.step fd failNever s e).fs.out = s.fs.out ++ s.pfx ++ t := by
  cases e with
  | kv_u64 key v =>
    obtain ⟨m, hm⟩ := sl_step_u64_nf fd s key v
    exact append4_exists2 _ _ _ _ _ (by rw [hm])
  | kv_i64 key v =>
    obtain ⟨m, hm⟩ := sl_step_i64_nf fd s key v
    exact append4_exists2 _ _ _ _ _ (by rw [hm])
  | kv_f64 key v =>
    obtain ⟨m, hm⟩ := sl_step_f64_nf fd s key v
    exact append4_exists2 _ _ _ _ _ (by rw [hm])
  | kv_bool key v =>
    obtain ⟨m, hm⟩ := sl_step_bool_nf fd s key v
    exact append4_exists2 _ _ _ _ _ (by rw [hm])
  | kv_null key =>
    obtain ⟨m, hm⟩ := sl_step_null_nf fd s key
    exact ⟨slKeyText key none, by rw [hm]⟩
  | kv_str key v =>
    obtain ⟨m, hm⟩ := sl_step_str_nf fd s key v
    exact append4_exists2 _ _ _ _ _ (by rw [hm])
  | kv_fmt key v =>
    obtain ⟨m, hm⟩ := push_key_nf s key (some '=')
    obtain ⟨m2, hm2⟩ := push_str_val_nf
      ({ out := s.fs.out ++ s.pfx ++ slKeyText key (some '='), n := m } : FmtState) v.1
    refine append4_exists2 _ _ _ _ _ (?_ :
      (Kvdisp.step fd failNever s (Ev.kv_fmt key v)).fs.out =
        s.fs.out ++ s.pfx ++ slKeyText key (some '=') ++ specStrValSL v.1)
    simp only [Kvdisp.step, hm, vcatch, hm2]
  | kv_map key =>
    obtain ⟨m, hm⟩ := sl_step_map_nf fd s key
    exact append4_exists2 _ _ _ _ _ (by rw [hm])
  | kv_mapend key => exact absurd he (by simp [isClose])
  | kv_arr key =>
    obtain ⟨m, hm⟩ := sl_step_arr_nf fd s key
    exact append4_exists2 _ _ _ _ _ (by rw [hm])
  | kv_arrend key => exact absurd he (by simp [isClose])

theorem js_step_open_out (fd : F64 → String) (s : VState) (e : Ev)
    (he : isClose e = false) :
    ∃ t, (Kvjson.step fd failNever s e).fs.out = s.fs.out ++ s.pfx ++ t := by
  cases e with
  | kv_u64 key v =>
    obtain ⟨m, hm⟩ := js_step_u64_nf fd s key v
    exact append4_exists2 _ _ _ _ _ (by rw [hm])
  | kv_i64 key v =>
    obtain ⟨m, hm⟩ := js_step_i64_nf fd s key v
    exact append4_exists2 _ _ _ _ _ (by rw [hm])
  | kv_f64 key v =>
    obtain ⟨m, hm⟩ := js_step_f64_nf fd s key v
    exact append4_exists2 _ _ _ _ _ (by rw [hm])
  | kv_bool key v =>
    obtain ⟨m, hm⟩ := js_step_bool_nf fd s key v
    exact append4_exists2 _ _ _ _ _ (by rw [hm])
  | kv_null key =>
    obtain ⟨m, hm⟩ := js_step_null_nf fd s key
    exact append4_exists2 _ _ _ _ _ (by rw [hm])
  | kv_str key v =>
    obtain ⟨m, hm⟩ := js_step_str_nf fd s key v
    exact append4_exists2 _ _ _ _ _ (by rw [hm])
  | kv_fmt key v =>
    obtain ⟨m, hm⟩ := js_push_key_nf s key
    obtain ⟨m2, hm2⟩ := push_str_literal_nf
      ({ out := s.fs.out ++ s.pfx ++ jsKeyText key, n := m } : FmtState) v.1
    refine append4_exists2 _ _ _ _ _ (?_ :
      (Kvjson.step fd failNever s (Ev.kv_fmt key v)).fs.out =
        s.fs.out ++ s.pfx ++ jsKeyText key ++ specStrJSON v.1)
    simp only [Kvjson.step, hm, vcatch, hm2]
  | kv_map key =>
    obtain ⟨m, hm⟩ := js_step_map_nf fd s key
    exact append4_exists2 _ _ _ _ _ (by rw [hm])
  | kv_mapend key => exact absurd he (by simp [isClose])
  | kv_arr key =>
    obtain ⟨m, hm⟩ := js_step_arr_nf fd s key
    exact append4_exists2 _ _ _ _ _ (by rw [hm])
  | kv_arrend key => exact absurd he (by simp [isClose])

/-- C5 counterexample: with a sink that rejects exactly the third write
call, the single event `kv_u64 None 5` with empty prefix and suffix `!`
renders with the visitor's sticky error flag still `false`, yet the
Display impl reports an error (the failing write is the suffix write,
which is returned directly without passing through the flag).  This
refutes the claim that an error is returned exactly when the flag is
set. -/
theorem C5_counterexample :
    (Kvdisp.fmt (fun _ => "") (fun n => n == 2) [Ev.kv_u64 none 5] "" "!"
      { out := "", n := 0 }).2 = false ∧
    (Kvdisp.run (fun _ => "") (fun n => n == 2) [Ev.kv_u64 none 5]
      { fs := { out := "", n := 0 }, pfx := "", empty := true,
        error := false }).error = false := by
  decide

/-- C5 amended: write failures inside the visitor's event handling set a
sticky error flag that remains set for the rest of the render (for both
renderers and any sink); the Display impl returns an error exactly when
that flag is set, or when the flag is unset, output was emitted and the
final suffix write itself fails; and with a sink that accepts every write
no event sequence — well-nested or not — causes an error (failed lazy
formatting aside). -/
theorem C5_amended :
    (∀ (fd : F64 → String) (fail : Nat → Bool) (evs : List Ev) (s : VState),
      s.error = true → (Kvdisp.run fd fail evs s).error = true) ∧
    (∀ (fd : F64 → String) (fail : Nat → Bool) (evs : List Ev) (s : VState),
      s.error = true → (Kvjson.run fd fail evs s).error = true) ∧
    (∀ (fd : F64 → String) (fail : Nat → Bool) (evs : List Ev)
      (p q : String) (init : FmtState),
      (Kvdisp.fmt fd fail evs p q init).2 = false ↔
        ((Kvdisp.run fd fail evs
            { fs := init, pfx := p, empty := true, error := false }).error = true ∨
         ((Kvdisp.run fd fail evs
            { fs := init, pfx := p, empty := true, error := false }).error = false ∧
          (Kvdisp.run fd fail evs
            { fs := init, pfx := p, empty := true, error := false }).empty = false ∧
          fail (Kvdisp.run fd fail evs
            { fs := init, pfx := p, empty := true, error := false }).fs.n = true))) ∧
    (∀ (fd : F64 → String) (fail : Nat → Bool) (evs : List Ev)
      (p q : String) (init : FmtState),
      (Kvjson.fmt fd fail evs p q init).2 = false ↔
        ((Kvjson.run fd fail evs
            { fs := init, pfx := p, empty := true, error := false }).error = true ∨
         ((Kvjson.run fd fail evs
            { fs := init, pfx := p, empty := true, error := false }).error = false ∧
          (Kvjson.run fd fail evs
            { fs := init, pfx := p, empty := true, error := false }).empty = false ∧
          fail (Kvjson.run fd fail evs
            { fs := init, pfx := p, empty := true, error := false }).fs.n = true))) ∧
    (∀ (fd : F64 → String) (evs : List Ev) (p q : String) (init : FmtState),
      evs.all evFmtOk = true → (Kvdisp.fmt fd failNever evs p q init).2 = true) ∧
    (∀ (fd : F64 → String) (evs : List Ev) (p q : String) (init : FmtState),
      evs.all evFmtOk = true → (Kvjson.fmt fd failNever evs p q init).2 = true) := by
  refine ⟨?_, ?_, ?_, ?_, ?_, ?_⟩
  · intro fd fail evs s h
    exact sl_run_error_mono fd fail evs s h
  · intro fd fail evs s h
    exact js_run_error_mono fd fail evs s h
  · intro fd fail evs p q init
    unfold Kvdisp.fmt
    by_cases h1 : (Kvdisp.run fd fail evs
        { fs := init, pfx := p, empty := true, error := false }).error = true
    · simp [h1]
    · simp only [Bool.not_eq_true] at h1
      by_cases h2 : (Kvdisp.run fd fail evs
          { fs := init, pfx := p, empty := true, error := false }).empty = true
      · simp [h1, h2]
      · simp only [Bool.not_eq_true] at h2
        by_cases h3 : fail (Kvdisp.run fd fail evs
            { fs := init, pfx := p, empty := true, error := false }).fs.n = true
        · simp [h1, h2, h3, wr]
        · simp only [Bool.not_eq_true] at h3
          simp [h1, h2, h3, wr]
  · intro fd fail evs p q init
    unfold Kvjson.fmt
    by_cases h1 : (Kvjson.run fd fail evs
        { fs := init, pfx := p, empty := true, error := false }).error = true
    · simp [h1]
    · simp only [Bool.not_eq_true] at h1
      by_cases h2 : (Kvjson.run fd fail evs
          { fs := init, pfx := p, empty := true, error := false }).empty = true
      · simp [h1, h2]
      · simp only [Bool.not_eq_true] at h2
        by_cases h3 : fail (Kvjson.run fd fail evs
            { fs := init, pfx := p, empty := true, error := false }).fs.n = true
        · simp [h1, h2, h3, wr]
        · simp only [Bool.not_eq_true] at h3
          simp [h1, h2, h3, wr]
  · intro fd evs p q init hall
    unfold Kvdisp.fmt
    have herr := sl_run_error_keep fd evs hall
      { fs := init, pfx := p, empty := true, error := false }
    simp only [herr, Bool.false_eq_true, if_false]
    by_cases h2 : (Kvdisp.run fd failNever evs
        { fs := init, pfx := p, empty := true, error := false }).empty = true
    · simp [h2]
    · simp [h2, wr_failNever]
  · intro fd evs p q init hall
    unfold Kvjson.fmt
    have herr := js_run_error_keep fd evs hall
      { fs := init, pfx := p, empty := true, error := false }
    simp only [herr, Bool.false_eq_true, if_false]
    by_cases h2 : (Kvjson.run fd failNever evs
        { fs := init, pfx := p, empty := true, error := false }).empty = true
    · simp [h2]
    · simp [h2, wr_failNever]

/-- C5 witness: the amended theorem applied at concrete inputs — a visitor
started with the flag set keeps it set across an event, and a simple
one-event render against a sink that never fails succeeds in both
renderers. -/
theorem C5_amended_witness :
    (Kvdisp.run (fun _ => "") failNever [Ev.kv_u64 none 1]
      { fs := { out := "", n := 0 }, pfx := "", empty := true,
        error := true }).error = true ∧
    (Kvjson.run (fun _ => "") failNever [Ev.kv_u64 none 1]
      { fs := { out := "", n := 0 }, pfx := "", empty := true,
        error := true }).error = true ∧
    (Kvdisp.fmt (fun _ => "") failNever [Ev.kv_u64 none 1] "" ""
      { out := "", n := 0 }).2 = true ∧
    (Kvjson.fmt (fun _ => "") failNever [Ev.kv_u64 none 1] "" ""
      { out := "", n := 0 }).2 = true :=
  ⟨C5_amended.1 _ _ _ _ rfl,
   C5_amended.2.1 _ _ _ _ rfl,
   C5_amended.2.2.2.2.1 _ _ _ _ _ (by decide),
   C5_amended.2.2.2.2.2 _ _ _ _ _ (by decide)⟩

theorem sl_step_fmt_fail (fd : F64 → String) (fail : Nat → Bool) (s : VState)
    (key : Option String) (txt : String) :
    (Kvdisp.step fd fail s (Ev.kv_fmt key (txt, false))).error = true := by
  show (vcatch _ _).error = true
  apply vcatch_error_true
  simp

theorem js_step_fmt_fail (fd : F64 → String) (fail : Nat → Bool) (s : VState)
    (key : Option String) (txt : String) :
    (Kvjson.step fd fail s (Ev.kv_fmt key (txt, false))).error = true := by
  show (vcatch _ _).error = true
  apply vcatch_error_true
  simp

/-- C9: when the lazily-formatted value of a `kv_fmt` event fails to
format (its own Display impl errors while writing into the scratch
buffer), the sticky error flag is set and the whole render reports a
formatting failure in both renderers, even against a sink that accepts
every write — so the reported error is not limited to sink write
failures. -/
theorem C9_fmt_display_failure :
    ∀ (fd : F64 → String) (key : Option String) (txt : String)
      (pre post : List Ev) (p q : String) (init : FmtState),
      (Kvdisp.fmt fd failNever
        (pre ++ Ev.kv_fmt key (txt, false) :: post) p q init).2 = false ∧
      (Kvjson.fmt fd failNever
        (pre ++ Ev.kv_fmt key (txt, false) :: post) p q init).2 = false := by
  intro fd key txt pre post p q init
  constructor
  · have herr : (Kvdisp.run fd failNever
        (pre ++ Ev.kv_fmt key (txt, false) :: post)
        { fs := init, pfx := p, empty := true, error := false }).error = true := by
      rw [sl_run_append, sl_run_cons]
      apply sl_run_error_mono
      exact sl_step_fmt_fail fd failNever _ key txt
    unfold Kvdisp.fmt
    simp [herr]
  · have herr : (Kvjson.run fd failNever
        (pre ++ Ev.kv_fmt key (txt, false) :: post)
        { fs := init, pfx := p, empty := true, error := false }).error = true := by
      rw [js_run_append, js_run_cons]
      apply js_run_error_mono
      exact js_step_fmt_fail fd failNever _ key txt
    unfold Kvjson.fmt
    simp [herr]

/-- C6 counterexample: the single event `kv_mapend None` (a close with no
matching open) is "at least one event", yet the single-line wrapper with
prefix a space and suffix `!` writes only the closing brace: the result
text contains neither the prefix (no space) nor the suffix (no `!`), and
no error is reported.  This refutes the claim's converse direction. -/
theorem C6_counterexample :
    (Kvdisp.fmt (fun _ => "") failNever [Ev.kv_mapend none] " " "!"
      { out := "x", n := 0 }).1.out = "x\x7d" ∧
    (Kvdisp.fmt (fun _ => "") failNever [Ev.kv_mapend none] " " "!"
      { out := "x", n := 0 }).2 = true ∧
    "x\x7d".toList.contains ' ' = false ∧
    "x\x7d".toList.contains '!' = false := by
  decide

/-- C6 amended: a traversal issuing zero events leaves the sink unchanged
and reports success (neither prefix nor suffix appears), for both
renderers; conversely, with a never-failing sink and no failing lazy
format, if the first event is not a container-close event then the prefix
is written immediately before the first item's output and the suffix is
written after the last, and the render succeeds. -/
theorem C6_amended :
    (∀ (fd : F64 → String) (fail : Nat → Bool) (p q : String) (init : FmtState),
      Kvdisp.fmt fd fail [] p q init = (init, true)) ∧
    (∀ (fd : F64 → String) (fail : Nat → Bool) (p q : String) (init : FmtState),
      Kvjson.fmt fd fail [] p q init = (init, true)) ∧
    (∀ (fd : F64 → String) (e : Ev) (evs : List Ev) (p q : String)
      (init : FmtState), isClose e = false → (e :: evs).all evFmtOk = true →
      ∃ mid, (Kvdisp.fmt fd failNever (e :: evs) p q init).1.out =
          init.out ++ p ++ mid ++ q ∧
        (Kvdisp.fmt fd failNever (e :: evs) p q init).2 = true) ∧
    (∀ (fd : F64 → String) (e : Ev) (evs : List Ev) (p q : String)
      (init : FmtState), isClose e = false → (e :: evs).all evFmtOk = true →
      ∃ mid, (Kvjson.fmt fd failNever (e :: evs) p q init).1.out =
          init.out ++ p ++ mid ++ q ∧
        (Kvjson.fmt fd failNever (e :: evs) p q init).2 = true) := by
  refine ⟨?_, ?_, ?_, ?_⟩
  · intro fd fail p q init
    rfl
  · intro fd fail p q init
    rfl
  · intro fd e evs p q init hcl hall
    rw [List.all_cons, Bool.and_eq_true] at hall
    have herr : (Kvdisp.run fd failNever (e :: evs)
        { fs := init, pfx := p, empty := true, error := false }).error = false := by
      rw [sl_run_cons, sl_run_error_keep fd evs hall.2,
        sl_step_error_keep fd _ e hall.1]
    have hemp : (Kvdisp.run fd failNever (e :: evs)
        { fs := init, pfx := p, empty := true, error := false }).empty = false := by
      rw [sl_run_cons]
      apply sl_run_empty_false
      rw [sl_step_empty]
      simp [hcl]
    obtain ⟨t1, h1⟩ := sl_step_open_out fd
      { fs := init, pfx := p, empty := true, error := false } e hcl
    obtain ⟨t2, h2⟩ := sl_run_out_append fd evs
      (Kvdisp.step fd failNever
        { fs := init, pfx := p, empty := true, error := false } e)
    refine ⟨t1 ++ t2, ?_, ?_⟩
    · unfold Kvdisp.fmt
      simp only [herr, hemp, Bool.false_eq_true, if_false, wr_failNever]
      rw [sl_run_cons, h2, h1]
      simp [String.append_assoc]
    · unfold Kvdisp.fmt
      simp [herr, hemp, wr_failNever]
  · intro fd e evs p q init hcl hall
    rw [List.all_cons, Bool.and_eq_true] at hall
    have herr : (Kvjson.run fd failNever (e :: evs)
        { fs := init, pfx := p, empty := true, error := false }).error = false := by
      rw [js_run_cons, js_run_error_keep fd evs hall.2,
        js_step_error_keep fd _ e hall.1]
    have hemp : (Kvjson.run fd failNever (e :: evs)
        { fs := init, pfx := p, empty := true, error := false }).empty = false := by
      rw [js_run_cons]
      apply js_run_empty_false
      rw [js_step_empty]
      simp [hcl]
    obtain ⟨t1, h1⟩ := js_step_open_out fd
      { fs := init, pfx := p, empty := true, error := false } e hcl
    obtain ⟨t2, h2⟩ := js_run_out_append fd evs
      (Kvjson.step fd failNever
        { fs := init, pfx := p, empty := true, error := false } e)
    refine ⟨t1 ++ t2, ?_, ?_⟩
    · unfold Kvjson.fmt
      simp only [herr, hemp, Bool.false_eq_true, if_false, wr_failNever]
      rw [js_run_cons, h2, h1]
      simp [String.append_assoc]
    · unfold Kvjson.fmt
      simp [herr, hemp, wr_failNever]

/-- C6 witness: the amended theorem applied at a concrete non-close first
event, discharging both hypotheses. -/
theorem C6_amended_witness :
    isClose (Ev.kv_u64 none 7) = false ∧
    ([Ev.kv_u64 none 7].all evFmtOk = true) ∧
    ∃ mid, (Kvdisp.fmt (fun _ => "") failNever [Ev.kv_u64 none 7] " " ""
        { out := "d", n := 0 }).1.out = "d" ++ " " ++ mid ++ "" ∧
      (Kvdisp.fmt (fun _ => "") failNever [Ev.kv_u64 none 7] " " ""
        { out := "d", n := 0 }).2 = true :=
  ⟨by decide, by decide,
   C6_amended.2.2.1 (fun _ => "") (Ev.kv_u64 none 7) [] " " ""
     { out := "d", n := 0 } (by decide) (by decide)⟩

theorem sl_step_scrub (fd : F64 → String) (fail : Nat → Bool) (s : VState)
    (e : Ev) : Kvdisp.step fd fail s (scrubClose e) = Kvdisp.step fd fail s e := by
  cases e <;> rfl

theorem js_step_scrub (fd : F64 → String) (fail : Nat → Bool) (s : VState)
    (e : Ev) : Kvjson.step fd fail s (scrubClose e) = Kvjson.step fd fail s e := by
  cases e <;> rfl

theorem sl_run_scrub (fd : F64 → String) (fail : Nat → Bool) (evs : List Ev) :
    ∀ s : VState, Kvdisp.run fd fail (evs.map scrubClose) s =
      Kvdisp.run fd fail evs s := by
  induction evs with
  | nil => intro s; rfl
  | cons e rest ih =>
    intro s
    rw [List.map_cons, sl_run_cons, sl_run_cons, sl_step_scrub, ih]

theorem js_run_scrub (fd : F64 → String) (fail : Nat → Bool) (evs : List Ev) :
    ∀ s : VState, Kvjson.run fd fail (evs.map scrubClose) s =
      Kvjson.run fd fail evs s := by
  induction evs with
  | nil => intro s; rfl
  | cons e rest ih =>
    intro s
    rw [List.map_cons, js_run_cons, js_run_cons, js_step_scrub, ih]

/-- C10: both renderers ignore the key argument of `kv_mapend` and
`kv_arrend` entirely: two event sequences that agree after erasing the
keys of close events render byte-identically (same final sink state and
same result), for any sink, prefix, suffix and initial text; in
particular a close need not echo the key of its matching open. -/
theorem C10_close_keys_ignored :
    ∀ (fd : F64 → String) (fail : Nat → Bool) (evs1 evs2 : List Ev)
      (p q : String) (init : FmtState),
      evs1.map scrubClose = evs2.map scrubClose →
      Kvdisp.fmt fd fail evs1 p q init = Kvdisp.fmt fd fail evs2 p q init ∧
      Kvjson.fmt fd fail evs1 p q init = Kvjson.fmt fd fail evs2 p q init := by
  intro fd fail evs1 evs2 p q init h
  have h1 : ∀ s : VState, Kvdisp.run fd fail evs1 s = Kvdisp.run fd fail evs2 s := by
    intro s
    rw [← sl_run_scrub fd fail evs1 s, h, sl_run_scrub]
  have h2 : ∀ s : VState, Kvjson.run fd fail evs1 s = Kvjson.run fd fail evs2 s := by
    intro s
    rw [← js_run_scrub fd fail evs1 s, h, js_run_scrub]
  constructor
  · unfold Kvdisp.fmt
    rw [h1]
  · unfold Kvjson.fmt
    rw [h2]

/-- C10 witness: the theorem applied to two concrete sequences that differ
only in the key passed to the close event. -/
theorem C10_witness :
    ([Ev.kv_map (some "m"), Ev.kv_mapend (some "m")].map scrubClose =
      [Ev.kv_map (some "m"), Ev.kv_mapend (some "x")].map scrubClose) ∧
    Kvdisp.fmt (fun _ => "") failNever
        [Ev.kv_map (some "m"), Ev.kv_mapend (some "m")] " " ""
        { out := "", n := 0 } =
      Kvdisp.fmt (fun _ => "") failNever
        [Ev.kv_map (some "m"), Ev.kv_mapend (some "x")] " " ""
        { out := "", n := 0 } :=
  ⟨by decide,
   (C10_close_keys_ignored (fun _ => "") failNever
     [Ev.kv_map (some "m"), Ev.kv_mapend (some "m")]
     [Ev.kv_map (some "m"), Ev.kv_mapend (some "x")] " " ""
     { out := "", n := 0 } (by decide)).1⟩

mutual

theorem sl_run_item_nf (fd : F64 → String) (i : Item) (s : VState) :
    ∃ m, Kvdisp.run fd failNever (evsOfItem i) s =
      { fs := { out := s.fs.out ++ s.pfx ++ specItemSL fd i, n := m },
        pfx := " ", empty := false, error := s.error } := by
  cases i with
  | u64i key v =>
    obtain ⟨m, hm⟩ := sl_step_u64_nf fd s key v
    refine ⟨m, ?_⟩
    simp only [evsOfItem, specItemSL]
    rw [sl_run_cons, sl_run_nil, hm]
    simp [String.append_assoc]
  | i64i key v =>
    obtain ⟨m, hm⟩ := sl_step_i64_nf fd s key v
    refine ⟨m, ?_⟩
    simp only [evsOfItem, specItemSL]
    rw [sl_run_cons, sl_run_nil, hm]
    simp [String.append_assoc]
  | f64i key v =>
    obtain ⟨m, hm⟩ := sl_step_f64_nf fd s key v
    refine ⟨m, ?_⟩
    simp only [evsOfItem, specItemSL]
    rw [sl_run_cons, sl_run_nil, hm]
    simp [String.append_assoc]
  | booli key v =>
    obtain ⟨m, hm⟩ := sl_step_bool_nf fd s key v
    refine ⟨m, ?_⟩
    simp only [evsOfItem, specItemSL]
    rw [sl_run_cons, sl_run_nil, hm]
    simp [String.append_assoc]
  | nulli key =>
    obtain ⟨m, hm⟩ := sl_step_null_nf fd s key
    refine ⟨m, ?_⟩
    simp only [evsOfItem, specItemSL]
    rw [sl_run_cons, sl_run_nil, hm]
  | stri key v =>
    obtain ⟨m, hm⟩ := sl_step_str_nf fd s key v
    refine ⟨m, ?_⟩
    simp only [evsOfItem, specItemSL]
    rw [sl_run_cons, sl_run_nil, hm]
    simp [String.append_assoc]
  | fmti key v =>
    obtain ⟨m, hm⟩ := sl_step_fmt_nf fd s key v
    refine ⟨m, ?_⟩
    simp only [evsOfItem, specItemSL]
    rw [sl_run_cons, sl_run_nil, hm]
    simp [String.append_assoc]
  | mapi key cs =>
    obtain ⟨m0, h0⟩ := sl_step_map_nf fd s key
    obtain ⟨m1, h1⟩ := sl_run_items_nf fd cs
      { fs := { out := s.fs.out ++ s.pfx ++ slKeyText key none ++ "\x7b", n := m0 },
        pfx := "", empty := false, error := s.error }
    refine ⟨m1 + 1, ?_⟩
    simp only [evsOfItem, specItemSL]
    rw [sl_run_cons, h0, sl_run_append, h1, sl_run_cons, sl_run_nil,
      sl_step_mapend_nf]
    by_cases hcs : cs.isEmpty
    · rw [List.isEmpty_iff] at hcs
      subst hcs
      simp [specItemsSL, String.append_assoc]
    · simp only [Bool.not_eq_true] at hcs
      simp [hcs, String.append_assoc]
  | arri key cs =>
    obtain ⟨m0, h0⟩ := sl_step_arr_nf fd s key
    obtain ⟨m1, h1⟩ := sl_run_items_nf fd cs
      { fs := { out := s.fs.out ++ s.pfx ++ slKeyText key none ++ "[", n := m0 },
        pfx := "", empty := false, error := s.error }
    refine ⟨m1 + 1, ?_⟩
    simp only [evsOfItem, specItemSL]
    rw [sl_run_cons, h0, sl_run_append, h1, sl_run_cons, sl_run_nil,
      sl_step_arrend_nf]
    by_cases hcs : cs.isEmpty
    · rw [List.isEmpty_iff] at hcs
      subst hcs
      simp [specItemsSL, String.append_assoc]
    · simp only [Bool.not_eq_true] at hcs
      simp [hcs, String.append_assoc]
termination_by sizeOf i

theorem sl_run_items_nf (fd : F64 → String) (l : List Item) (s : VState) :
    ∃ m, Kvdisp.run fd failNever (evsOfItems l) s =
      { fs := { out := s.fs.out ++
                  (if l.isEmpty then "" else s.pfx ++ specItemsSL fd l), n := m },
        pfx := (if l.isEmpty then s.pfx else " "),
        empty := (if l.isEmpty then s.empty else false),
        error := s.error } := by
  cases l with
  | nil =>
    refine ⟨s.fs.n, ?_⟩
    simp [evsOfItems, sl_run_nil]
  | cons i rest =>
    obtain ⟨m1, h1⟩ := sl_run_item_nf fd i s
    cases rest with
    | nil =>
      refine ⟨m1, ?_⟩
      simp only [evsOfItems, List.append_nil, List.isEmpty_cons, Bool.false_eq_true,
        if_false]
      rw [h1]
      simp [specItemsSL, String.append_assoc]
    | cons j rest2 =>
      obtain ⟨m2, h2⟩ := sl_run_items_nf fd (j :: rest2)
        { fs := { out := s.fs.out ++ s.pfx ++ specItemSL fd i, n := m1 },
          pfx := " ", empty := false, error := s.error }
      refine ⟨m2, ?_⟩
      simp only [evsOfItems, List.isEmpty_cons, Bool.false_eq_true, if_false] at h2 ⊢
      rw [sl_run_append, h1, h2]
      simp [specItemsSL, String.append_assoc]
termination_by sizeOf l

end

mutual

theorem js_run_item_nf (fd : F64 → String) (i : Item) (s : VState) :
    ∃ m, Kvjson.run fd failNever (evsOfItem i) s =
      { fs := { out := s.fs.out ++ s.pfx ++ specItemJS fd i, n := m },
        pfx := ",", empty := false, error := s.error } := by
  cases i with
  | u64i key v =>
    obtain ⟨m, hm⟩ := js_step_u64_nf fd s key v
    refine ⟨m, ?_⟩
    simp only [evsOfItem, specItemJS]
    rw [js_run_cons, js_run_nil, hm]
    simp [String.append_assoc]
  | i64i key v =>
    obtain ⟨m, hm⟩ := js_step_i64_nf fd s key v
    refine ⟨m, ?_⟩
    simp only [evsOfItem, specItemJS]
    rw [js_run_cons, js_run_nil, hm]
    simp [String.append_assoc]
  | f64i key v =>
    obtain ⟨m, hm⟩ := js_step_f64_nf fd s key v
    refine ⟨m, ?_⟩
    simp only [evsOfItem, specItemJS]
    rw [js_run_cons, js_run_nil, hm]
    simp [String.append_assoc]
  | booli key v =>
    obtain ⟨m, hm⟩ := js_step_bool_nf fd s key v
    refine ⟨m, ?_⟩
    simp only [evsOfItem, specItemJS]
    rw [js_run_cons, js_run_nil, hm]
    simp [String.append_assoc]
  | nulli key =>
    obtain ⟨m, hm⟩ := js_step_null_nf fd s key
    refine ⟨m, ?_⟩
    simp only [evsOfItem, specItemJS]
    rw [js_run_cons, js_run_nil, hm]
    simp [String.append_assoc]
  | stri key v =>
    obtain ⟨m, hm⟩ := js_step_str_nf fd s key v
    refine ⟨m, ?_⟩
    simp only [evsOfItem, specItemJS]
    rw [js_run_cons, js_run_nil, hm]
    simp [String.append_assoc]
  | fmti key v =>
    obtain ⟨m, hm⟩ := js_step_fmt_nf fd s key v
    refine ⟨m, ?_⟩
    simp only [evsOfItem, specItemJS]
    rw [js_run_cons, js_run_nil, hm]
    simp [String.append_assoc]
  | mapi key cs =>
    obtain ⟨m0, h0⟩ := js_step_map_nf fd s key
    obtain ⟨m1, h1⟩ := js_run_items_nf fd cs
      { fs := { out := s.fs.out ++ s.pfx ++ jsKeyText key ++ "\x7b", n := m0 },
        pfx := "", empty := false, error := s.error }
    refine ⟨m1 + 1, ?_⟩
    simp only [evsOfItem, specItemJS]
    rw [js_run_cons, h0, js_run_append, h1, js_run_cons, js_run_nil,
      js_step_mapend_nf]
    by_cases hcs : cs.isEmpty
    · rw [List.isEmpty_iff] at hcs
      subst hcs
      simp [specItemsJS, String.append_assoc]
    · simp only [Bool.not_eq_true] at hcs
      simp [hcs, String.append_assoc]
  | arri key cs =>
    obtain ⟨m0, h0⟩ := js_step_arr_nf fd s key
    obtain ⟨m1, h1⟩ := js_run_items_nf fd cs
      { fs := { out := s.fs.out ++ s.pfx ++ jsKeyText key ++ "[", n := m0 },
        pfx := "", empty := false, error := s.error }
    refine ⟨m1 + 1, ?_⟩
    simp only [evsOfItem, specItemJS]
    rw [js_run_cons, h0, js_run_append, h1, js_run_cons, js_run_nil,
      js_step_arrend_nf]
    by_cases hcs : cs.isEmpty
    · rw [List.isEmpty_iff] at hcs
      subst hcs
      simp [specItemsJS, String.append_assoc]
    · simp only [Bool.not_eq_true] at hcs
      simp [hcs, String.append_assoc]
termination_by sizeOf i

theorem js_run_items_nf (fd : F64 → String) (l : List Item) (s : VState) :
    ∃ m, Kvjson.run fd failNever (evsOfItems l) s =
      { fs := { out := s.fs.out ++
                  (if l.isEmpty then "" else s.pfx ++ specItemsJS fd l), n := m },
        pfx := (if l.isEmpty then s.pfx else ","),
        empty := (if l.isEmpty then s.empty else false),
        error := s.error } := by
  cases l with
  | nil =>
    refine ⟨s.fs.n, ?_⟩
    simp [evsOfItems, js_run_nil]
  | cons i rest =>
    obtain ⟨m1, h1⟩ := js_run_item_nf fd i s
    cases rest with
    | nil =>
      refine ⟨m1, ?_⟩
      simp only [evsOfItems, List.append_nil, List.isEmpty_cons, Bool.false_eq_true,
        if_false]
      rw [h1]
      simp [specItemsJS, String.append_assoc]
    | cons j rest2 =>
      obtain ⟨m2, h2⟩ := js_run_items_nf fd (j :: rest2)
        { fs := { out := s.fs.out ++ s.pfx ++ specItemJS fd i, n := m1 },
          pfx := ",", empty := false, error := s.error }
      refine ⟨m2, ?_⟩
      simp only [evsOfItems, List.isEmpty_cons, Bool.false_eq_true, if_false] at h2 ⊢
      rw [js_run_append, h1, h2]
      simp [specItemsJS, String.append_assoc]
termination_by sizeOf l

end

/-- C7: separator correctness.  For every well-nested event sequence (the
flattening of a list of items) the rendered output equals, at every
nesting level, the items' texts intercalated with exactly one separator
token between adjacent siblings and none at the ends — a single space for
the single-line renderer (`specItemsSL`) and a single comma for JSON
(`specItemsJS`); entering a container resets the pending separator so its
first child is unseparated, and after the container closes the fixed
separator applies again at the parent level. -/
theorem C7_separator_correctness :
    ∀ (fd : F64 → String) (items : List Item) (p q : String) (init : FmtState),
      ((Kvdisp.fmt fd failNever (evsOfItems items) p q init).1.out =
          init.out ++
            (if items.isEmpty then "" else p ++ specItemsSL fd items ++ q) ∧
        (Kvdisp.fmt fd failNever (evsOfItems items) p q init).2 = true) ∧
      ((Kvjson.fmt fd failNever (evsOfItems items) p q init).1.out =
          init.out ++
            (if items.isEmpty then "" else p ++ specItemsJS fd items ++ q) ∧
        (Kvjson.fmt fd failNever (evsOfItems items) p q init).2 = true) := by
  intro fd items p q init
  obtain ⟨m1, h1⟩ := sl_run_items_nf fd items
    { fs := init, pfx := p, empty := true, error := false }
  obtain ⟨m2, h2⟩ := js_run_items_nf fd items
    { fs := init, pfx := p, empty := true, error := false }
  by_cases hit : items.isEmpty
  · rw [List.isEmpty_iff] at hit
    subst hit
    refine ⟨⟨?_, rfl⟩, ⟨?_, rfl⟩⟩
    · simp [Kvdisp.fmt, evsOfItems, sl_run_nil]
    · simp [Kvjson.fmt, evsOfItems, js_run_nil]
  · simp only [Bool.not_eq_true] at hit
    simp only [hit, Bool.false_eq_true, if_false] at h1 h2 ⊢
    constructor
    · constructor
      · unfold Kvdisp.fmt
        rw [h1]
        simp [wr_failNever, String.append_assoc]
      · unfold Kvdisp.fmt
        rw [h1]
        simp [wr_failNever]
    · constructor
      · unfold Kvjson.fmt
        rw [h2]
        simp [wr_failNever, String.append_assoc]
      · unfold Kvjson.fmt
        rw [h2]
        simp [wr_failNever]

theorem visitElems_eq (l : List RustVal) :
    visitElems l = l.flatMap (fun v => visit v none) := by
  induction l with
  | nil => simp [visitElems]
  | cons v rest ih => simp [visitElems, ih]

theorem visitEntries_eq (l : List (String × RustVal)) :
    visitEntries l = l.flatMap (fun e => visit e.2 (some e.1)) := by
  induction l with
  | nil => simp [visitEntries]
  | cons e rest ih =>
    obtain ⟨k, v⟩ := e
    simp [visitEntries, ih]

/-- C4: the `Visitable` dispatch layer follows the spec's type table.
Unsigned integers of every width widen to `kv_u64` and signed ones to
`kv_i64` (the value-preserving `as` casts), floats of either width reach
`kv_f64` (`f32v` carries its exact `f64` image), `bool` goes to
`kv_bool`, unit to `kv_null`, text strings to `kv_str` with the borrowed
slice itself; a single character or 128-bit integer is stringified via
default Display formatting and emitted through `kv_fmt` as a scalar
string; a sequence container opens an array, visits each element with no
key and closes it; an associative container with string keys opens a map,
visits each entry's value under its string key and closes it; the
incoming key is used only at the outermost open/close calls of a
composite. -/
theorem C4_dispatch_table :
    (∀ (key : Option String) (n : Nat),
      visit (RustVal.u8v n) key = [Ev.kv_u64 key n] ∧
      visit (RustVal.u16v n) key = [Ev.kv_u64 key n] ∧
      visit (RustVal.u32v n) key = [Ev.kv_u64 key n] ∧
      visit (RustVal.u64v n) key = [Ev.kv_u64 key n] ∧
      visit (RustVal.usizev n) key = [Ev.kv_u64 key n]) ∧
    (∀ (key : Option String) (n : Int),
      visit (RustVal.i8v n) key = [Ev.kv_i64 key n] ∧
      visit (RustVal.i16v n) key = [Ev.kv_i64 key n] ∧
      visit (RustVal.i32v n) key = [Ev.kv_i64 key n] ∧
      visit (RustVal.i64v n) key = [Ev.kv_i64 key n] ∧
      visit (RustVal.isizev n) key = [Ev.kv_i64 key n]) ∧
    (∀ (key : Option String) (x : F64),
      visit (RustVal.f32v x) key = [Ev.kv_f64 key x] ∧
      visit (RustVal.f64v x) key = [Ev.kv_f64 key x]) ∧
    (∀ (key : Option String) (b : Bool),
      visit (RustVal.boolv b) key = [Ev.kv_bool key b]) ∧
    (∀ key : Option String, visit RustVal.unitv key = [Ev.kv_null key]) ∧
    (∀ (key : Option String) (t : String),
      visit (RustVal.strv t) key = [Ev.kv_str key t]) ∧
    (∀ (key : Option String) (p : String × Bool),
      visit (RustVal.fmtargsv p) key = [Ev.kv_fmt key p]) ∧
    (∀ (key : Option String) (c : Char),
      visit (RustVal.charv c) key = [Ev.kv_fmt key (String.singleton c, true)]) ∧
    (∀ (key : Option String) (n : Nat),
      visit (RustVal.u128v n) key = [Ev.kv_fmt key (toString n, true)]) ∧
    (∀ (key : Option String) (n : Int),
      visit (RustVal.i128v n) key = [Ev.kv_fmt key (toString n, true)]) ∧
    (∀ (key : Option String) (elems : List RustVal),
      visit (RustVal.arrv elems) key =
        Ev.kv_arr key ::
          (elems.flatMap (fun v => visit v none) ++ [Ev.kv_arrend key])) ∧
    (∀ (key : Option String) (entries : List (String × RustVal)),
      visit (RustVal.mapv entries) key =
        Ev.kv_map key ::
          (entries.flatMap (fun e => visit e.2 (some e.1)) ++
            [Ev.kv_mapend key])) := by
  refine ⟨?_, ?_, ?_, ?_, ?_, ?_, ?_, ?_, ?_, ?_, ?_, ?_⟩
  · intro key n
    refine ⟨?_, ?_, ?_, ?_, ?_⟩ <;> simp [visit]
  · intro key n
    refine ⟨?_, ?_, ?_, ?_, ?_⟩ <;> simp [visit]
  · intro key x
    refine ⟨?_, ?_⟩ <;> simp [visit]
  · intro key b
    simp [visit]
  · intro key
    simp [visit]
  · intro key t
    simp [visit]
  · intro key p
    simp [visit]
  · intro key c
    simp [visit]
  · intro key n
    simp [visit]
  · intro key n
    simp [visit]
  · intro key elems
    simp [visit, visitElems_eq]
  · intro key entries
    simp [visit, visitEntries_eq]
